import Mathlib

/-!
Verification of the `allsorts` glyph-substitution (GSUB) engine.

This file is a shallow embedding, in Lean 4, of the shaping code in
`src/gsub.rs` and `src/scripts/arabic.rs`.  Rust `Vec<RawGlyph<T>>` buffers
become Lean `List (RawGlyph T)` values that are threaded through the
functions; in-place mutation becomes explicit state passing.  Machine
integers (`u16`, `u32`, `usize`, `isize`) are modelled as `Nat`/`Int`
(no arithmetic in this code can overflow `u32`/`usize` in the scenarios
the theorems cover, and `isize` deltas are modelled as `Int`).
Fallible code returns `Except`/`Option`; a Rust `panic!` (index out of
bounds, `unwrap` failure, or the explicit defensive panic in
`Ligature::apply`) is modelled by the error value `SubstError.fatal`.

The table-parsing layer (`layout.rs`) and the match engine (`context.rs`)
are not part of the sources; where the embedded code calls into them, the
definitions here are modelled from the specification and carry a doc
comment saying so.
-/

set_option autoImplicit false

namespace Allsorts

universe u

/-! ## Generic list helpers

Small executable helpers mirroring the `Vec` operations used by the Rust
code (`v[i] = x` style in-place update and `Vec::insert`). -/

/-- In-place update of the element at index `i` (out-of-range: no-op,
which call sites never exercise). Mirrors `glyphs[i].field = ...`. -/
def modifyAt {α : Type u} (i : Nat) (f : α → α) : List α → List α
  | [] => []
  | a :: rest =>
    match i with
    | 0 => f a :: rest
    | n + 1 => a :: modifyAt n f rest

/-- Mirrors `Vec::insert(i, a)`: insert `a` so that it ends up at index
`i`, shifting later elements. (`i` past the end appends; Rust would
panic there, a case no call site reaches.) -/
def insertAt {α : Type u} (i : Nat) (a : α) : List α → List α
  | [] => [a]
  | x :: rest =>
    match i with
    | 0 => a :: x :: rest
    | n + 1 => x :: insertAt n a rest

/-- First `some` produced by applying `f` to the elements of `l`, mirroring
the early-`return` subtable scan loops of `gsub.rs`. -/
def firstSome {α : Type u} {β : Type u} (f : α → Option β) : List α → Option β
  | [] => none
  | a :: rest =>
    match f a with
    | some b => some b
    | none => firstSome f rest

/-! ## OpenType tags

The `tag` module is not among the sources; a tag is a big-endian four-byte
ASCII identifier packed into a `u32`. -/

/-- Modelled from the spec: a four-character OpenType tag packed into a
32-bit integer (the `tag!` construction of the missing `tag` module). -/
def fourCC (a b c d : Char) : Nat :=
  ((a.toNat * 256 + b.toNat) * 256 + c.toNat) * 256 + d.toNat

namespace tag

def VERT : Nat := fourCC 'v' 'e' 'r' 't'
def VRT2 : Nat := fourCC 'v' 'r' 't' '2'
def FINA : Nat := fourCC 'f' 'i' 'n' 'a'
def INIT : Nat := fourCC 'i' 'n' 'i' 't'
def ISOL : Nat := fourCC 'i' 's' 'o' 'l'
def MEDI : Nat := fourCC 'm' 'e' 'd' 'i'
def CCMP : Nat := fourCC 'c' 'c' 'm' 'p'
def LIGA : Nat := fourCC 'l' 'i' 'g' 'a'
def RLIG : Nat := fourCC 'r' 'l' 'i' 'g'
def CALT : Nat := fourCC 'c' 'a' 'l' 't'
def FRAC : Nat := fourCC 'f' 'r' 'a' 'c'
def MSET : Nat := fourCC 'm' 's' 'e' 't'

end tag

/-! ## The glyph sequence model (`RawGlyph`, `GlyphOrigin`) -/

/-- `GlyphOrigin` from `gsub.rs`: where a glyph came from. -/
inductive GlyphOrigin where
  | char (c : Char)
  | direct
  deriving DecidableEq

/-- `RawGlyph<T>` from `gsub.rs`.  `unicodes: TinyVec<[char; 1]>` becomes
`List Char`; `glyph_index: Option<u16>` and the `u16` component position
become `Option Nat`/`Nat`; `variation: Option<VariationSelector>` is
modelled as `Option Nat` (the selector enum is outside the sources and
only ever reset or copied here). -/
structure RawGlyph (T : Type) where
  unicodes : List Char
  glyph_index : Option Nat
  liga_component_pos : Nat
  glyph_origin : GlyphOrigin
  small_caps : Bool
  multi_subst_dup : Bool
  is_vert_alt : Bool
  fake_bold : Bool
  fake_italic : Bool
  variation : Option Nat
  extra_data : T
  deriving DecidableEq

/-- Errors of the embedded engine.  `limitExceeded` and `badIndex` model
`ParseError::LimitExceeded` and a failed lookup-list fetch
(`lookup_cache_gsub` on a bad index); `fatal` models a Rust `panic!`
(the defensive ligature panic, an out-of-bounds `Vec` index, or a failed
`unwrap`); `fuelOut` is an artifact of embedding the unbounded `while`
loops with an iteration budget — every call below supplies a budget the
loops cannot exhaust. -/
inductive SubstError where
  | limitExceeded
  | badIndex
  | fatal
  | fuelOut
  deriving DecidableEq

/-- The `checked_add(base: usize, changes: isize)` helper of `gsub.rs`. -/
def checkedAdd (base : Nat) (changes : Int) : Option Nat :=
  if (base : Int) + changes < 0 then none else some ((base : Int) + changes).toNat

/-! ## Match engine (modelled from the spec)

`MatchType` and its methods live in `context.rs`, which is not among the
sources.  Per the spec (§3, §4.1) a `MatchType` is derived once per lookup
from its flag bits and yields a visibility predicate on glyphs (a glyph is
visible unless its GDEF class is excluded by the lookup flags).  We model
the combination of a `MatchType` and the ambient optional GDEF table
directly as that predicate, `vis : RawGlyph T → Bool`. -/

/-- Modelled from the spec (§4.1, `context.rs` not in the sources):
`MatchType::find_nth(gdef, glyphs, start, count)` scans forward from
`start` counting only visible glyphs and returns the absolute index of the
`count`-th visible one (0-based, `glyphs[start]` counting when visible),
or `none` when the sequence is exhausted. -/
def findNthAux {T : Type} (vis : RawGlyph T → Bool) :
    List (RawGlyph T) → Nat → Nat → Option Nat
  | [], _, _ => none
  | g :: rest, j, count =>
    if vis g then
      match count with
      | 0 => some j
      | c + 1 => findNthAux vis rest (j + 1) c
    else
      findNthAux vis rest (j + 1) count

/-- Modelled from the spec (§4.1): see `findNthAux`. -/
def find_nth {T : Type} (vis : RawGlyph T → Bool) (glyphs : List (RawGlyph T))
    (start count : Nat) : Option Nat :=
  findNthAux vis (glyphs.drop start) start count

/-! ## Single substitution (`singlesubst`, `gsub.rs` lines 355–384)

The `SingleSubst` subtable internals live in `layout.rs` (not in the
sources); per the spec a subtable maps a glyph id to an optional
replacement id, so a subtable is modelled as `Nat → Option Nat`
(`SingleSubst::apply_glyph`, parse errors never arising from the model). -/

/-- `singlesubst_would_apply`: first subtable producing an output glyph for
`glyphs[i]`'s resolved index. -/
def singlesubst_would_apply {T : Type} (subtables : List (Nat → Option Nat))
    (i : Nat) (glyphs : List (RawGlyph T)) : Option Nat :=
  match glyphs[i]? with
  | some g =>
    match g.glyph_index with
    | some glyph_index => firstSome (fun st => st glyph_index) subtables
    | none => none
  | none => none

/-- `singlesubst`: replace the glyph index at `i`, set origin `Direct`, and
set the vertical-alternate flag when the active feature tag is `vert` or
`vrt2`. -/
def singlesubst {T : Type} (subtables : List (Nat → Option Nat)) (subst_tag : Nat)
    (i : Nat) (glyphs : List (RawGlyph T)) : List (RawGlyph T) :=
  match singlesubst_would_apply subtables i glyphs with
  | some output_glyph =>
    modifyAt i
      (fun g =>
        { g with
          glyph_index := some output_glyph
          glyph_origin := GlyphOrigin.direct
          is_vert_alt :=
            if subst_tag = tag.VERT ∨ subst_tag = tag.VRT2 then true else g.is_vert_alt })
      glyphs
  | none => glyphs

/-! ## Multiple substitution (`multiplesubst`, `gsub.rs` lines 386–438)

A `MultipleSubst` subtable (`layout.rs`, not in the sources) maps a glyph
id to an optional `SequenceTable`, i.e. a list of substitute glyph ids;
it is modelled as `Nat → Option (List Nat)`. -/

/-- `multiplesubst_would_apply`: first subtable with a sequence table for
`glyphs[i]`'s resolved index. -/
def multiplesubst_would_apply {T : Type} (subtables : List (Nat → Option (List Nat)))
    (i : Nat) (glyphs : List (RawGlyph T)) : Option (List Nat) :=
  match glyphs[i]? with
  | some g =>
    match g.glyph_index with
    | some glyph_index => firstSome (fun st => st glyph_index) subtables
    | none => none
  | none => none

/-- The glyph record built for positions `1..N` of a multiple substitution:
a copy of the (already updated) glyph at `i` carrying replacement glyph
`output_glyph_index`, with `liga_component_pos` zeroed, origin `Direct`
and the duplicate flag set. -/
def dupGlyph {T : Type} (g : RawGlyph T) (output_glyph_index : Nat) : RawGlyph T :=
  { unicodes := g.unicodes
    glyph_index := some output_glyph_index
    liga_component_pos := 0
    glyph_origin := GlyphOrigin.direct
    small_caps := g.small_caps
    multi_subst_dup := true
    is_vert_alt := g.is_vert_alt
    fake_bold := g.fake_bold
    fake_italic := g.fake_italic
    variation := g.variation
    extra_data := g.extra_data }

/-- The `for j in 1..substitute_glyphs.len()` insertion loop of
`multiplesubst`: insert a duplicate of `glyphs[i]` at `i + j` for each
remaining substitute glyph (reading `glyphs[i]` afresh each iteration, as
the source does). -/
def multiInsert {T : Type} (i : Nat) :
    List Nat → Nat → List (RawGlyph T) → List (RawGlyph T)
  | [], _, glyphs => glyphs
  | gi :: rest, j, glyphs =>
    match glyphs[i]? with
    | some g => multiInsert i rest (j + 1) (insertAt (i + j) (dupGlyph g gi) glyphs)
    | none => glyphs

/-- `multiplesubst`: `1:N` substitution.  `N = 0` removes the glyph;
`N > 0` replaces in place and inserts `N − 1` duplicate-flagged copies.
Returns the new occupancy count `N`. -/
def multiplesubst {T : Type} (subtables : List (Nat → Option (List Nat)))
    (i : Nat) (glyphs : List (RawGlyph T)) : Option (List (RawGlyph T) × Nat) :=
  match multiplesubst_would_apply subtables i glyphs with
  | some sequence_table =>
    if 0 < sequence_table.length then
      match sequence_table with
      | [] => none
      | first_glyph_index :: rest =>
        let glyphs1 := modifyAt i
          (fun g =>
            { g with
              glyph_index := some first_glyph_index
              glyph_origin := GlyphOrigin.direct })
          glyphs
        some (multiInsert i rest 1 glyphs1, sequence_table.length)
    else
      some (glyphs.eraseIdx i, 0)
  | none => none

/-! ## Alternate substitution (`alternatesubst`, `gsub.rs` lines 440–469)

An `AlternateSubst` subtable maps a glyph id to an optional alternate set
(list of alternate glyph ids); modelled as `Nat → Option (List Nat)`. -/

/-- `alternatesubst_would_apply`. -/
def alternatesubst_would_apply {T : Type} (subtables : List (Nat → Option (List Nat)))
    (i : Nat) (glyphs : List (RawGlyph T)) : Option (List Nat) :=
  match glyphs[i]? with
  | some g =>
    match g.glyph_index with
    | some glyph_index => firstSome (fun st => st glyph_index) subtables
    | none => none
  | none => none

/-- `alternatesubst`: pick alternate number `alternate` when in range
(out-of-range: no-op). -/
def alternatesubst {T : Type} (subtables : List (Nat → Option (List Nat)))
    (alternate : Nat) (i : Nat) (glyphs : List (RawGlyph T)) : List (RawGlyph T) :=
  match alternatesubst_would_apply subtables i glyphs with
  | some alternateset =>
    if h : alternate < alternateset.length then
      modifyAt i
        (fun g =>
          { g with
            glyph_index := some (alternateset.get ⟨alternate, h⟩)
            glyph_origin := GlyphOrigin.direct })
        glyphs
    else glyphs
  | none => glyphs

/-! ## Ligature substitution (`Ligature::{matches, apply}`, `ligaturesubst`)

The `Ligature` struct (`layout.rs`, not in the sources) carries the
ligature glyph id and the component glyph ids that must follow the
trigger glyph.  A `LigatureSubst` subtable maps a trigger glyph id to an
optional ligature set, modelled as `Nat → Option (List Ligature)`.

The `extra_data` merge of the `GlyphData` trait is passed explicitly as
`merge : T → T → T`. -/

/-- `Ligature` from `layout.rs` (fields as consumed by `gsub.rs`). -/
structure Ligature where
  ligature_glyph : Nat
  component_glyphs : List Nat
  deriving DecidableEq

/-- Modelled from the spec (§4.1–4.2, `context.rs` not in the sources):
`MatchType::match_front` over `GlyphTable::ById(components)` starting
after the trigger: each visible glyph must carry the next component id,
invisible glyphs float through; `true` once every component is matched,
`false` on a mismatch or when the sequence is exhausted first. -/
def matchFrontAux {T : Type} (vis : RawGlyph T → Bool) :
    List Nat → List (RawGlyph T) → Bool
  | [], _ => true
  | _ :: _, [] => false
  | c :: cs, g :: gs =>
    if vis g then
      decide (g.glyph_index = some c) && matchFrontAux vis cs gs
    else
      matchFrontAux vis (c :: cs) gs

/-- `Ligature::matches` (`gsub.rs` lines 40–55): match the component
glyphs against the glyphs following position `i`. -/
def Ligature.matches {T : Type} (lig : Ligature) (vis : RawGlyph T → Bool)
    (i : Nat) (glyphs : List (RawGlyph T)) : Bool :=
  matchFrontAux vis lig.component_glyphs (glyphs.drop (i + 1))

/-- The matching `while matched < self.component_glyphs.len()` loop of
`Ligature::apply`, run over the glyphs after the trigger.  `need` is the
number of components still to absorb, `matched` the number absorbed so
far.  Returns `(trigger', skipped, remainder, skip)` where `trigger'` has
absorbed the unicodes/extra data of the matched glyphs (which are
removed), `skipped` is the list of passed-over invisible glyphs (kept,
with `liga_component_pos` stamped), `remainder` is the untouched suffix
and `skip` the skipped-glyph count.  `none` models the defensive
`panic!` when the glyphs run out. -/
def ligAbsorb {T : Type} (vis : RawGlyph T → Bool) (merge : T → T → T)
    (trigger : RawGlyph T) (matched : Nat) :
    Nat → List (RawGlyph T) → Option (RawGlyph T × List (RawGlyph T) × List (RawGlyph T) × Nat)
  | 0, rest => some (trigger, [], rest, 0)
  | _ + 1, [] => none
  | need + 1, g :: rest =>
    if vis g then
      ligAbsorb vis merge
        { trigger with
          unicodes := trigger.unicodes ++ g.unicodes
          extra_data := merge trigger.extra_data g.extra_data }
        (matched + 1) need rest
    else
      match ligAbsorb vis merge trigger matched (need + 1) rest with
      | some (t, sk, rem, skip) =>
        some (t, { g with liga_component_pos := matched } :: sk, rem, skip + 1)
      | none => none

/-- The trailing `while ... marks_only().match_glyph(...)` loop of
`Ligature::apply`: stamp `liga_component_pos` on the marks immediately
following the consumed region.  `marksVis` models
`MatchType::marks_only().match_glyph` with the ambient GDEF table. -/
def ligTrailingMarks {T : Type} (marksVis : RawGlyph T → Bool) (matched : Nat) :
    List (RawGlyph T) → List (RawGlyph T)
  | [] => []
  | g :: rest =>
    if marksVis g then
      { g with liga_component_pos := matched } :: ligTrailingMarks marksVis matched rest
    else
      g :: rest

/-- `Ligature::apply` (`gsub.rs` lines 57–95): absorb the matched
component glyphs into the trigger at `i`, stamp trailing marks, then set
the trigger's glyph index to the ligature glyph and its origin to
`Direct`.  Returns the updated sequence and the skipped-glyph count;
`none` models the `panic!` paths (the defensive end-of-glyphs panic, or
an out-of-bounds trigger index). -/
def Ligature.apply {T : Type} (lig : Ligature) (vis marksVis : RawGlyph T → Bool)
    (merge : T → T → T) (i : Nat) (glyphs : List (RawGlyph T)) :
    Option (List (RawGlyph T) × Nat) :=
  match glyphs[i]? with
  | none => none
  | some trigger =>
    match ligAbsorb vis merge trigger 0 lig.component_glyphs.length (glyphs.drop (i + 1)) with
    | none => none
    | some (t, sk, rem, skip) =>
      some
        (glyphs.take i ++
          ({ t with
              glyph_index := some lig.ligature_glyph
              glyph_origin := GlyphOrigin.direct } ::
            (sk ++ ligTrailingMarks marksVis lig.component_glyphs.length rem)),
          skip)

/-- `ligaturesubst_would_apply`: first ligature of the first subtable with
a ligature set for `glyphs[i]`'s resolved index whose component glyphs
match after `i` (a subtable whose set has no matching ligature does not
stop the scan). -/
def ligaturesubst_would_apply {T : Type} (vis : RawGlyph T → Bool)
    (subtables : List (Nat → Option (List Ligature))) (i : Nat)
    (glyphs : List (RawGlyph T)) : Option Ligature :=
  match glyphs[i]? with
  | some g =>
    match g.glyph_index with
    | some glyph_index =>
      firstSome
        (fun st =>
          match st glyph_index with
          | some ligatureset =>
            firstSome
              (fun lig => if lig.matches vis i glyphs then some lig else none)
              ligatureset
          | none => none)
        subtables
    | none => none
  | none => none

/-- `ligaturesubst` (`gsub.rs` lines 492–506): on a match, apply the
ligature and report `(component_glyphs.len(), skip_count)` alongside the
updated sequence. -/
def ligaturesubst {T : Type} (vis marksVis : RawGlyph T → Bool) (merge : T → T → T)
    (subtables : List (Nat → Option (List Ligature))) (i : Nat)
    (glyphs : List (RawGlyph T)) :
    Except SubstError (Option (List (RawGlyph T) × Nat × Nat)) :=
  match ligaturesubst_would_apply vis subtables i glyphs with
  | some ligature =>
    match ligature.apply vis marksVis merge i glyphs with
    | some (glyphs2, skip) =>
      Except.ok (some (glyphs2, ligature.component_glyphs.length, skip))
    | none => Except.error SubstError.fatal
  | none => Except.ok none

/-! ## Reverse chain single substitution (`gsub.rs` lines 602–637)

A `ReverseChainSingleSubst` subtable checks its backtrack/lookahead
context and maps the glyph id to an optional replacement; the context
check lives in `layout.rs`/`context.rs` (not in the sources), so the
subtable is modelled as the composite `Nat → Option Nat`. -/

/-- `reversechainsinglesubst_would_apply`. -/
def reversechainsinglesubst_would_apply {T : Type}
    (subtables : List (Nat → Option Nat)) (i : Nat) (glyphs : List (RawGlyph T)) :
    Option Nat :=
  match glyphs[i]? with
  | some g =>
    match g.glyph_index with
    | some glyph_index => firstSome (fun st => st glyph_index) subtables
    | none => none
  | none => none

/-- `reversechainsinglesubst`: 1:1 replace with origin `Direct`. -/
def reversechainsinglesubst {T : Type} (subtables : List (Nat → Option Nat))
    (i : Nat) (glyphs : List (RawGlyph T)) : List (RawGlyph T) :=
  match reversechainsinglesubst_would_apply subtables i glyphs with
  | some output_glyph =>
    modifyAt i
      (fun g =>
        { g with
          glyph_index := some output_glyph
          glyph_origin := GlyphOrigin.direct })
      glyphs
  | none => glyphs

/-! ## Context and chain-context substitution

`ContextLookup`/`ChainContextLookup` subtables and the
`context_lookup_info`/`chain_context_lookup_info` helpers live in
`layout.rs`/`context.rs` (not in the sources).  Per the spec (§4.2,
glossary) a (chain-)context rule, matched against the glyph at the
cursor (with backtrack/input/lookahead class checks), yields the length
of its input table and a list of nested `(subst_index, lookup_index)`
pairs; a subtable is therefore modelled as a function from the cursor's
glyph id to an optional such record. -/

/-- Modelled from the spec: the data `gsub.rs` reads off a matched
`SubstContext` — `match_context.input_table.len()` (the number of input
glyphs *after* the coverage-matched first one) and `lookup_array`. -/
structure SubstContextModel where
  inputLen : Nat
  lookupArray : List (Nat × Nat)

/-- Modelled from the spec: a `ContextLookup`/`ChainContextLookup`
subtable as consumed by `gsub.rs` — the composite of
`(chain_)context_lookup_info` and `context.matches`. -/
def ContextLookupModel : Type := Nat → Option SubstContextModel

/-- `contextsubst_would_apply`: first subtable with a matching context for
`glyphs[i]`'s resolved index. -/
def contextsubst_would_apply {T : Type} (subtables : List ContextLookupModel)
    (i : Nat) (glyphs : List (RawGlyph T)) : Option SubstContextModel :=
  match glyphs[i]? with
  | some g =>
    match g.glyph_index with
    | some glyph_index => firstSome (fun st => st glyph_index) subtables
    | none => none
  | none => none

/-- `chaincontextsubst_would_apply`: same shape as
`contextsubst_would_apply` over chain-context subtables. -/
def chaincontextsubst_would_apply {T : Type} (subtables : List ContextLookupModel)
    (i : Nat) (glyphs : List (RawGlyph T)) : Option SubstContextModel :=
  match glyphs[i]? with
  | some g =>
    match g.glyph_index with
    | some glyph_index => firstSome (fun st => st glyph_index) subtables
    | none => none
  | none => none

/-- One GSUB lookup's subtables (`SubstLookup` from `layout.rs`, shapes as
consumed by `gsub.rs`). -/
inductive SubstLookup where
  | singleSubst (subtables : List (Nat → Option Nat))
  | multipleSubst (subtables : List (Nat → Option (List Nat)))
  | alternateSubst (subtables : List (Nat → Option (List Nat)))
  | ligatureSubst (subtables : List (Nat → Option (List Ligature)))
  | contextSubst (subtables : List ContextLookupModel)
  | chainContextSubst (subtables : List ContextLookupModel)
  | reverseChainSingleSubst (subtables : List (Nat → Option Nat))

/-- `LookupCacheItem`: one lookup of the lookup list.  `vis` models
`MatchType::from_lookup_flag(lookup_flag).match_glyph(opt_gdef_table, ·)`
(the lookup's visibility predicate under the ambient GDEF table). -/
structure LookupCacheItem (T : Type) where
  vis : RawGlyph T → Bool
  lookup_subtables : SubstLookup

/-- The ambient data threaded through lookup application: the parsed
lookup list (`LookupList` + `LayoutCache`, fetched by index), the
marks-only visibility predicate (`MatchType::marks_only()` with the
ambient GDEF table) and the `GlyphData::merge` function of `T`. -/
structure SubstEnv (T : Type) where
  lookupList : List (LookupCacheItem T)
  marksVis : RawGlyph T → Bool
  merge : T → T → T

/-- `SUBST_RECURSION_LIMIT` (`gsub.rs` line 30). -/
def SUBST_RECURSION_LIMIT : Nat := 2

/-- The `for (subst_index, subst_lookup_index) in subst.lookup_array` loop
of `apply_subst_context`, parameterised by the nested-application
function `app` (which is `apply_subst` at the current recursion limit):
accumulate the signed length changes and thread the glyph sequence. -/
def apply_subst_listF {T : Type}
    (app : (RawGlyph T → Bool) → Nat → Nat → Nat → List (RawGlyph T) →
      Except SubstError (Option Int × List (RawGlyph T)))
    (vis : RawGlyph T → Bool) (i : Nat) :
    List (Nat × Nat) → List (RawGlyph T) → Int →
    Except SubstError (Int × List (RawGlyph T))
  | [], glyphs, changes => Except.ok (changes, glyphs)
  | (subst_index, subst_lookup_index) :: rest, glyphs, changes =>
    match app vis subst_index subst_lookup_index i glyphs with
    | Except.error e => Except.error e
    | Except.ok (some changes0, glyphs2) =>
      apply_subst_listF app vis i rest glyphs2 (changes + changes0)
    | Except.ok (none, glyphs2) => apply_subst_listF app vis i rest glyphs2 changes

/-- `apply_subst_context` (`gsub.rs` lines 639–681), parameterised by the
nested-application function: compute the matched input length via
`find_nth`, run the nested lookups, and return
`(new input length, changes)` with the updated sequence.  The
`checked_add` failure (`panic!("apply_subst_context: len < 0")`) is the
`fatal` error. -/
def apply_subst_contextF {T : Type}
    (app : (RawGlyph T → Bool) → Nat → Nat → Nat → List (RawGlyph T) →
      Except SubstError (Option Int × List (RawGlyph T)))
    (vis : RawGlyph T → Bool) (subst : SubstContextModel) (i : Nat)
    (glyphs : List (RawGlyph T)) :
    Except SubstError (Option (Nat × Int × List (RawGlyph T))) :=
  match find_nth vis glyphs i subst.inputLen with
  | none => Except.ok none
  | some last =>
    let len := last - i + 1
    match apply_subst_listF app vis i subst.lookupArray glyphs 0 with
    | Except.error e => Except.error e
    | Except.ok (changes, glyphs2) =>
      match checkedAdd len changes with
      | some new_len => Except.ok (some (new_len, changes, glyphs2))
      | none => Except.error SubstError.fatal

/-- `contextsubst` (`gsub.rs` lines 527–552), parameterised by the
nested-application function. -/
def contextsubstF {T : Type}
    (app : (RawGlyph T → Bool) → Nat → Nat → Nat → List (RawGlyph T) →
      Except SubstError (Option Int × List (RawGlyph T)))
    (subtables : List ContextLookupModel) (vis : RawGlyph T → Bool) (i : Nat)
    (glyphs : List (RawGlyph T)) :
    Except SubstError (Option (Nat × Int × List (RawGlyph T))) :=
  match contextsubst_would_apply subtables i glyphs with
  | some subst => apply_subst_contextF app vis subst i glyphs
  | none => Except.ok none

/-- `chaincontextsubst` (`gsub.rs` lines 575–600), parameterised by the
nested-application function. -/
def chaincontextsubstF {T : Type}
    (app : (RawGlyph T → Bool) → Nat → Nat → Nat → List (RawGlyph T) →
      Except SubstError (Option Int × List (RawGlyph T)))
    (subtables : List ContextLookupModel) (vis : RawGlyph T → Bool) (i : Nat)
    (glyphs : List (RawGlyph T)) :
    Except SubstError (Option (Nat × Int × List (RawGlyph T))) :=
  match chaincontextsubst_would_apply subtables i glyphs with
  | some subst => apply_subst_contextF app vis subst i glyphs
  | none => Except.ok none

/-- `apply_subst` (`gsub.rs` lines 691–773): fetch the nested lookup,
locate the `subst_index`-th visible glyph from `index` under the parent
match type, and dispatch on the subtable kind.  Nested `Context`/
`ChainContext` lookups recurse with `recursion_limit - 1` when the
remaining limit is positive and fail with `LimitExceeded` when it is 0.
Structural recursion on `limit`. -/
def apply_subst {T : Type} (env : SubstEnv T) :
    Nat → Nat → (RawGlyph T → Bool) → Nat → Nat → Nat → List (RawGlyph T) →
    Except SubstError (Option Int × List (RawGlyph T))
  | limit, feature_tag, parentVis, subst_index, lookup_index, index, glyphs =>
    match env.lookupList[lookup_index]? with
    | none => Except.error SubstError.badIndex
    | some lookup =>
      match find_nth parentVis glyphs index subst_index with
      | none => Except.ok (none, glyphs)
      | some i =>
        match lookup.lookup_subtables with
        | SubstLookup.singleSubst subtables =>
          Except.ok (some 0, singlesubst subtables feature_tag i glyphs)
        | SubstLookup.multipleSubst subtables =>
          match multiplesubst subtables i glyphs with
          | some (glyphs2, replace_count) =>
            Except.ok (some ((replace_count : Int) - 1), glyphs2)
          | none => Except.ok (none, glyphs)
        | SubstLookup.alternateSubst subtables =>
          Except.ok (some 0, alternatesubst subtables 0 i glyphs)
        | SubstLookup.ligatureSubst subtables =>
          match ligaturesubst lookup.vis env.marksVis env.merge subtables i glyphs with
          | Except.error e => Except.error e
          | Except.ok (some (glyphs2, removed_count, _skip_count)) =>
            Except.ok (some (-(removed_count : Int)), glyphs2)
          | Except.ok none => Except.ok (none, glyphs)
        | SubstLookup.contextSubst subtables =>
          match limit with
          | l + 1 =>
            match contextsubstF (apply_subst env l feature_tag) subtables lookup.vis i glyphs with
            | Except.error e => Except.error e
            | Except.ok (some (_length, change, glyphs2)) => Except.ok (some change, glyphs2)
            | Except.ok none => Except.ok (none, glyphs)
          | 0 => Except.error SubstError.limitExceeded
        | SubstLookup.chainContextSubst subtables =>
          match limit with
          | l + 1 =>
            match chaincontextsubstF (apply_subst env l feature_tag) subtables lookup.vis i glyphs with
            | Except.error e => Except.error e
            | Except.ok (some (_length, change, glyphs2)) => Except.ok (some change, glyphs2)
            | Except.ok none => Except.ok (none, glyphs)
          | 0 => Except.error SubstError.limitExceeded
        | SubstLookup.reverseChainSingleSubst subtables =>
          Except.ok (some 0, reversechainsinglesubst subtables i glyphs)

/-- `contextsubst` with its nested applications performed by `apply_subst`
at recursion limit `limit` (as in the source, where the limit is passed
through unchanged and decremented only inside `apply_subst`). -/
def contextsubst {T : Type} (env : SubstEnv T) (limit feature_tag : Nat)
    (subtables : List ContextLookupModel) (vis : RawGlyph T → Bool) (i : Nat)
    (glyphs : List (RawGlyph T)) :
    Except SubstError (Option (Nat × Int × List (RawGlyph T))) :=
  contextsubstF (apply_subst env limit feature_tag) subtables vis i glyphs

/-- `chaincontextsubst` with its nested applications performed by
`apply_subst` at recursion limit `limit`. -/
def chaincontextsubst {T : Type} (env : SubstEnv T) (limit feature_tag : Nat)
    (subtables : List ContextLookupModel) (vis : RawGlyph T → Bool) (i : Nat)
    (glyphs : List (RawGlyph T)) :
    Except SubstError (Option (Nat × Int × List (RawGlyph T))) :=
  chaincontextsubstF (apply_subst env limit feature_tag) subtables vis i glyphs

/-! ## The lookup application loop (`gsub_apply_lookup`, `gsub.rs` 227–353)

The fixed-width kinds iterate a simple index range; the variable-width
kinds are `while` loops whose cursor is advanced by the executor.  The
`while` loops are embedded with an explicit iteration budget (`fuel`);
every iteration of the source loops strictly decreases
`start + length - i`, so the budget `length + 1` supplied by
`gsub_apply_lookup` can never run out (`fuelOut`). -/

/-- The `SingleSubst` branch loop: `for i in start..(start + length)`
(`count` iterations remaining). -/
def singleLoop {T : Type} (subtables : List (Nat → Option Nat))
    (vis pred : RawGlyph T → Bool) (feature_tag : Nat) :
    List (RawGlyph T) → Nat → Nat → Except SubstError (List (RawGlyph T))
  | glyphs, _, 0 => Except.ok glyphs
  | glyphs, i, count + 1 =>
    match glyphs[i]? with
    | none => Except.error SubstError.fatal
    | some g =>
      singleLoop subtables vis pred feature_tag
        (if vis g && pred g then singlesubst subtables feature_tag i glyphs else glyphs)
        (i + 1) count

/-- The `AlternateSubst` branch loop (`alternate` is
`opt_alternate.unwrap_or(0)`). -/
def alternateLoop {T : Type} (subtables : List (Nat → Option (List Nat)))
    (vis pred : RawGlyph T → Bool) (alternate : Nat) :
    List (RawGlyph T) → Nat → Nat → Except SubstError (List (RawGlyph T))
  | glyphs, _, 0 => Except.ok glyphs
  | glyphs, i, count + 1 =>
    match glyphs[i]? with
    | none => Except.error SubstError.fatal
    | some g =>
      alternateLoop subtables vis pred alternate
        (if vis g && pred g then alternatesubst subtables alternate i glyphs else glyphs)
        (i + 1) count

/-- The `ReverseChainSingleSubst` branch loop:
`for i in (start..start + length).rev()` (`count` iterations remaining,
visiting `i = start + count - 1` first). -/
def reverseLoop {T : Type} (subtables : List (Nat → Option Nat))
    (vis pred : RawGlyph T → Bool) (start : Nat) :
    List (RawGlyph T) → Nat → Except SubstError (List (RawGlyph T))
  | glyphs, 0 => Except.ok glyphs
  | glyphs, count + 1 =>
    match glyphs[start + count]? with
    | none => Except.error SubstError.fatal
    | some g =>
      reverseLoop subtables vis pred start
        (if vis g && pred g then reversechainsinglesubst subtables (start + count) glyphs
         else glyphs)
        count

/-- The `MultipleSubst` branch `while i < start + length` loop. -/
def multipleLoop {T : Type} (subtables : List (Nat → Option (List Nat)))
    (vis pred : RawGlyph T → Bool) (start : Nat) :
    Nat → List (RawGlyph T) → Nat → Nat → Except SubstError (Nat × List (RawGlyph T))
  | 0, _, _, _ => Except.error SubstError.fuelOut
  | fuel + 1, glyphs, i, length =>
    if i < start + length then
      match glyphs[i]? with
      | none => Except.error SubstError.fatal
      | some g =>
        if vis g && pred g then
          match multiplesubst subtables i glyphs with
          | some (glyphs2, replace_count) =>
            multipleLoop subtables vis pred start fuel glyphs2 (i + replace_count)
              (length + replace_count - 1)
          | none => multipleLoop subtables vis pred start fuel glyphs (i + 1) length
        else multipleLoop subtables vis pred start fuel glyphs (i + 1) length
    else Except.ok (length, glyphs)

/-- The `LigatureSubst` branch `while i < start + length` loop. -/
def ligatureLoop {T : Type} (subtables : List (Nat → Option (List Ligature)))
    (vis marksVis pred : RawGlyph T → Bool) (merge : T → T → T) (start : Nat) :
    Nat → List (RawGlyph T) → Nat → Nat → Except SubstError (Nat × List (RawGlyph T))
  | 0, _, _, _ => Except.error SubstError.fuelOut
  | fuel + 1, glyphs, i, length =>
    if i < start + length then
      match glyphs[i]? with
      | none => Except.error SubstError.fatal
      | some g =>
        if vis g && pred g then
          match ligaturesubst vis marksVis merge subtables i glyphs with
          | Except.error e => Except.error e
          | Except.ok (some (glyphs2, removed_count, skip_count)) =>
            ligatureLoop subtables vis marksVis pred merge start fuel glyphs2
              (i + skip_count + 1) (length - removed_count)
          | Except.ok none =>
            ligatureLoop subtables vis marksVis pred merge start fuel glyphs (i + 1) length
        else ligatureLoop subtables vis marksVis pred merge start fuel glyphs (i + 1) length
    else Except.ok (length, glyphs)

/-- The `ContextSubst` branch `while i < start + length` loop; nested
application starts at `SUBST_RECURSION_LIMIT`.  The
`checked_add(length, changes).unwrap()` panic is the `fatal` error. -/
def contextLoop {T : Type} (env : SubstEnv T) (subtables : List ContextLookupModel)
    (vis pred : RawGlyph T → Bool) (feature_tag start : Nat) :
    Nat → List (RawGlyph T) → Nat → Nat → Except SubstError (Nat × List (RawGlyph T))
  | 0, _, _, _ => Except.error SubstError.fuelOut
  | fuel + 1, glyphs, i, length =>
    if i < start + length then
      match glyphs[i]? with
      | none => Except.error SubstError.fatal
      | some g =>
        if vis g && pred g then
          match contextsubst env SUBST_RECURSION_LIMIT feature_tag subtables vis i glyphs with
          | Except.error e => Except.error e
          | Except.ok (some (input_length, changes, glyphs2)) =>
            match checkedAdd length changes with
            | some length2 =>
              contextLoop env subtables vis pred feature_tag start fuel glyphs2
                (i + input_length) length2
            | none => Except.error SubstError.fatal
          | Except.ok none =>
            contextLoop env subtables vis pred feature_tag start fuel glyphs (i + 1) length
        else contextLoop env subtables vis pred feature_tag start fuel glyphs (i + 1) length
    else Except.ok (length, glyphs)

/-- The `ChainContextSubst` branch `while i < start + length` loop. -/
def chainContextLoop {T : Type} (env : SubstEnv T) (subtables : List ContextLookupModel)
    (vis pred : RawGlyph T → Bool) (feature_tag start : Nat) :
    Nat → List (RawGlyph T) → Nat → Nat → Except SubstError (Nat × List (RawGlyph T))
  | 0, _, _, _ => Except.error SubstError.fuelOut
  | fuel + 1, glyphs, i, length =>
    if i < start + length then
      match glyphs[i]? with
      | none => Except.error SubstError.fatal
      | some g =>
        if vis g && pred g then
          match chaincontextsubst env SUBST_RECURSION_LIMIT feature_tag subtables vis i glyphs with
          | Except.error e => Except.error e
          | Except.ok (some (input_length, changes, glyphs2)) =>
            match checkedAdd length changes with
            | some length2 =>
              chainContextLoop env subtables vis pred feature_tag start fuel glyphs2
                (i + input_length) length2
            | none => Except.error SubstError.fatal
          | Except.ok none =>
            chainContextLoop env subtables vis pred feature_tag start fuel glyphs (i + 1) length
        else chainContextLoop env subtables vis pred feature_tag start fuel glyphs (i + 1) length
    else Except.ok (length, glyphs)

/-- `gsub_apply_lookup` (`gsub.rs` lines 227–353): fetch the lookup and
run its kind's application loop over the window `[start, start+length)`,
returning the (possibly changed) window length together with the updated
sequence.  With no lookup list present the call is a no-op returning
`length`, as in the source. -/
def gsub_apply_lookup {T : Type} (optLookupList : Option (List (LookupCacheItem T)))
    (marksVis : RawGlyph T → Bool) (merge : T → T → T)
    (lookup_index feature_tag : Nat) (opt_alternate : Option Nat)
    (glyphs : List (RawGlyph T)) (start length : Nat) (pred : RawGlyph T → Bool) :
    Except SubstError (Nat × List (RawGlyph T)) :=
  match optLookupList with
  | none => Except.ok (length, glyphs)
  | some lookup_list =>
    match lookup_list[lookup_index]? with
    | none => Except.error SubstError.badIndex
    | some lookup =>
      let env : SubstEnv T := ⟨lookup_list, marksVis, merge⟩
      match lookup.lookup_subtables with
      | SubstLookup.singleSubst subtables =>
        match singleLoop subtables lookup.vis pred feature_tag glyphs start length with
        | Except.error e => Except.error e
        | Except.ok glyphs2 => Except.ok (length, glyphs2)
      | SubstLookup.multipleSubst subtables =>
        multipleLoop subtables lookup.vis pred start (length + 1) glyphs start length
      | SubstLookup.alternateSubst subtables =>
        match alternateLoop subtables lookup.vis pred (opt_alternate.getD 0) glyphs start length with
        | Except.error e => Except.error e
        | Except.ok glyphs2 => Except.ok (length, glyphs2)
      | SubstLookup.ligatureSubst subtables =>
        ligatureLoop subtables lookup.vis marksVis pred merge start (length + 1) glyphs
          start length
      | SubstLookup.contextSubst subtables =>
        contextLoop env subtables lookup.vis pred feature_tag start (length + 1) glyphs
          start length
      | SubstLookup.chainContextSubst subtables =>
        chainContextLoop env subtables lookup.vis pred feature_tag start (length + 1) glyphs
          start length
      | SubstLookup.reverseChainSingleSubst subtables =>
        match reverseLoop subtables lookup.vis pred start glyphs length with
        | Except.error e => Except.error e
        | Except.ok glyphs2 => Except.ok (length, glyphs2)

/-! ## Feature resolution (`build_lookups*`, `gsub.rs` lines 775–838)

`LayoutTable::find_langsys_feature(langsys, tag)` lives in `layout.rs`
(not in the sources); per the spec (§6) it returns the feature table —
its `lookup_indices` — declared for that tag in the LangSys, so a
LangSys is modelled as the function `Nat → Option (List Nat)`.
`BTreeMap<usize, u32>` is modelled as a key-sorted association list;
`insert` keeps the list sorted and, like `BTreeMap::insert`, replaces
the stored value when the key is already present. -/

/-- Modelled `BTreeMap::insert` on a key-sorted association list. -/
def btreeInsert (k v : Nat) : List (Nat × Nat) → List (Nat × Nat)
  | [] => [(k, v)]
  | (k1, v1) :: rest =>
    if k < k1 then (k, v) :: (k1, v1) :: rest
    else if k = k1 then (k, v) :: rest
    else (k1, v1) :: btreeInsert k v rest

/-- The inner `for lookup_index in &feature_table.lookup_indices` loop of
the `build_lookups*` functions. -/
def insertIndices (feature_tag : Nat) (lookup_indices : List Nat)
    (lookups : List (Nat × Nat)) : List (Nat × Nat) :=
  lookup_indices.foldl (fun m lookup_index => btreeInsert lookup_index feature_tag m) lookups

/-- `build_lookups` (`gsub.rs` lines 793–810): collect
`(lookup_index, feature_tag)` over the enabled features into a
`BTreeMap` keyed by lookup index, returned in ascending key order
(`into_iter` of the map). -/
def build_lookups (findLangsysFeature : Nat → Option (List Nat))
    (feature_tags : List Nat) : List (Nat × Nat) :=
  feature_tags.foldl
    (fun lookups feature_tag =>
      match findLangsysFeature feature_tag with
      | some lookup_indices => insertIndices feature_tag lookup_indices lookups
      | none => lookups)
    []

/-- `FeatureInfo` from `gsub.rs`. -/
structure FeatureInfo where
  feature_tag : Nat
  alternate : Option Nat

/-- `build_lookups_custom` (`gsub.rs` lines 775–791): as `build_lookups`
but driven by a `FeatureInfo` list. -/
def build_lookups_custom (findLangsysFeature : Nat → Option (List Nat))
    (feature_tags : List FeatureInfo) : List (Nat × Nat) :=
  feature_tags.foldl
    (fun lookups feature_info =>
      match findLangsysFeature feature_info.feature_tag with
      | some lookup_indices => insertIndices feature_info.feature_tag lookup_indices lookups
      | none => lookups)
    []

/-- `find_alternate` (`gsub.rs` lines 882–889): the alternate of the first
`FeatureInfo` with the given tag. -/
def find_alternate : List FeatureInfo → Nat → Option Nat
  | [], _ => none
  | feature_info :: rest, feature_tag =>
    if feature_info.feature_tag = feature_tag then feature_info.alternate
    else find_alternate rest feature_tag

/-! ## Post-processing -/

/-- `replace_missing_glyphs` (`gsub.rs` lines 942–960): any glyph whose
resolved index is `>= num_glyphs` is replaced wholesale with glyph 0 and
reset flags (`extra_data` is left as is, as in the source). -/
def replace_missing_glyphs {T : Type} (glyphs : List (RawGlyph T)) (num_glyphs : Nat) :
    List (RawGlyph T) :=
  glyphs.map fun glyph =>
    match glyph.glyph_index with
    | some glyph_index =>
      if num_glyphs ≤ glyph_index then
        { unicodes := []
          glyph_index := some 0
          liga_component_pos := 0
          glyph_origin := GlyphOrigin.direct
          small_caps := false
          multi_subst_dup := false
          is_vert_alt := false
          fake_bold := false
          fake_italic := false
          variation := none
          extra_data := glyph.extra_data }
      else glyph
    | none => glyph

/-! ## Custom feature application (`gsub_apply_custom`, `gsub.rs` 891–940)

`find_script_or_default`/`find_langsys_or_default` live in `layout.rs`
(not in the sources); their composite — the resolved LangSys for the
`(script, lang)` pair, if any — is passed in directly as `optLangsys`
(modelled from the spec, §6). -/

/-- The `for (lookup_index, feature_tag) in lookups` loop of
`gsub_apply_custom`: a lookup attributed to `fina` is applied over the
one-glyph window holding the last glyph (when the sequence is
non-empty), every other lookup over the whole sequence; the returned
window length is discarded, as in the source. -/
def customLoop {T : Type} (optLookupList : Option (List (LookupCacheItem T)))
    (marksVis : RawGlyph T → Bool) (merge : T → T → T)
    (features_list : List FeatureInfo) :
    List (Nat × Nat) → List (RawGlyph T) → Except SubstError (List (RawGlyph T))
  | [], glyphs => Except.ok glyphs
  | (lookup_index, feature_tag) :: rest, glyphs =>
    let alternate := find_alternate features_list feature_tag
    match
      (if feature_tag = tag.FINA ∧ 0 < glyphs.length then
        gsub_apply_lookup optLookupList marksVis merge lookup_index feature_tag alternate
          glyphs (glyphs.length - 1) 1 (fun _ => true)
      else
        gsub_apply_lookup optLookupList marksVis merge lookup_index feature_tag alternate
          glyphs 0 glyphs.length (fun _ => true)) with
    | Except.error e => Except.error e
    | Except.ok (_, glyphs2) => customLoop optLookupList marksVis merge features_list rest glyphs2

/-- `gsub_apply_custom` (`gsub.rs` lines 891–940): resolve the LangSys,
build the custom lookup list, run it (`fina` restricted to the last
glyph), then replace missing glyphs. -/
def gsub_apply_custom {T : Type} (optLangsys : Option (Nat → Option (List Nat)))
    (optLookupList : Option (List (LookupCacheItem T)))
    (marksVis : RawGlyph T → Bool) (merge : T → T → T)
    (features_list : List FeatureInfo) (num_glyphs : Nat)
    (glyphs : List (RawGlyph T)) : Except SubstError (List (RawGlyph T)) :=
  match optLangsys with
  | some langsys =>
    let lookups := build_lookups_custom langsys features_list
    match customLoop optLookupList marksVis merge features_list lookups glyphs with
    | Except.error e => Except.error e
    | Except.ok glyphs2 => Except.ok (replace_missing_glyphs glyphs2 num_glyphs)
  | none => Except.ok (replace_missing_glyphs glyphs num_glyphs)

/-! ## Fraction-aware application (`gsub.rs` lines 1161–1280) -/

/-- `gsub_apply_lookups_impl` (`gsub.rs` lines 1180–1204): apply the
resolved lookups in order over the window `[start, start+length)`,
threading the window length forward; returns the final length. -/
def gsub_apply_lookups_impl {T : Type} (optLookupList : Option (List (LookupCacheItem T)))
    (marksVis : RawGlyph T → Bool) (merge : T → T → T) :
    List (Nat × Nat) → List (RawGlyph T) → Nat → Nat →
    Except SubstError (Nat × List (RawGlyph T))
  | [], glyphs, _, length => Except.ok (length, glyphs)
  | (lookup_index, feature_tag) :: rest, glyphs, start, length =>
    match gsub_apply_lookup optLookupList marksVis merge lookup_index feature_tag none
        glyphs start length (fun _ => true) with
    | Except.error e => Except.error e
    | Except.ok (length2, glyphs2) =>
      gsub_apply_lookups_impl optLookupList marksVis merge rest glyphs2 start length2

/-- Whether a glyph's origin is a decimal-digit character
(`c.is_digit(10)` on a `GlyphOrigin::Char`). -/
def isDigitOrigin {T : Type} (g : RawGlyph T) : Bool :=
  match g.glyph_origin with
  | GlyphOrigin.char c => c.isDigit
  | GlyphOrigin.direct => false

/-- The `while start_pos > 0` loop of `find_fraction`: walk left over
digit-origin glyphs. -/
def fracStartLoop {T : Type} (glyphs : List (RawGlyph T)) : Nat → Nat
  | 0 => 0
  | s + 1 =>
    match glyphs[s]? with
    | some g => if isDigitOrigin g then fracStartLoop glyphs s else s + 1
    | none => s + 1

/-- The `while end_pos + 1 < glyphs.len()` loop of `find_fraction`: walk
right over digit-origin glyphs (`fuel ≥ glyphs.length` suffices, each
step increases `e` by one). -/
def fracEndLoop {T : Type} (glyphs : List (RawGlyph T)) : Nat → Nat → Nat
  | 0, e => e
  | fuel + 1, e =>
    if e + 1 < glyphs.length then
      match glyphs[e + 1]? with
      | some g => if isDigitOrigin g then fracEndLoop glyphs fuel (e + 1) else e
      | none => e
    else e

/-- `find_fraction` (`gsub.rs` lines 1253–1280): locate the first
`'/'`-origin glyph, extend maximally over digit-origin glyphs on both
sides, and return `(start, slash, end)` when there is at least one digit
on each side. -/
def find_fraction {T : Type} (glyphs : List (RawGlyph T)) : Option (Nat × Nat × Nat) :=
  match glyphs.findIdx? (fun g => decide (g.glyph_origin = GlyphOrigin.char '/')) with
  | none => none
  | some slash_pos =>
    let start_pos := fracStartLoop glyphs slash_pos
    let end_pos := fracEndLoop glyphs glyphs.length slash_pos
    if start_pos < slash_pos ∧ slash_pos < end_pos then
      some (start_pos, slash_pos, end_pos)
    else none

/-- The `while i < glyphs.len()` loop of `gsub_apply_lookups_frac`
(`gsub.rs` lines 1206–1251), with an iteration budget (each source
iteration either terminates the loop or strictly shrinks
`glyphs.len() - i`, so `glyphs.length + 1` budget suffices). -/
def fracLoop {T : Type} (optLookupList : Option (List (LookupCacheItem T)))
    (marksVis : RawGlyph T → Bool) (merge : T → T → T)
    (lookups lookups_frac : List (Nat × Nat)) :
    Nat → List (RawGlyph T) → Nat → Except SubstError (List (RawGlyph T))
  | 0, _, _ => Except.error SubstError.fuelOut
  | fuel + 1, glyphs, i =>
    if i < glyphs.length then
      match find_fraction (glyphs.drop i) with
      | some (start_pos, _slash_pos, end_pos) =>
        match
          (if 0 < start_pos then
            gsub_apply_lookups_impl optLookupList marksVis merge lookups glyphs i start_pos
          else Except.ok (0, glyphs)) with
        | Except.error e => Except.error e
        | Except.ok (adv1, glyphs1) =>
          match gsub_apply_lookups_impl optLookupList marksVis merge lookups_frac glyphs1
              (i + adv1) (end_pos - start_pos + 1) with
          | Except.error e => Except.error e
          | Except.ok (adv2, glyphs2) =>
            fracLoop optLookupList marksVis merge lookups lookups_frac fuel glyphs2
              (i + adv1 + adv2)
      | none =>
        match gsub_apply_lookups_impl optLookupList marksVis merge lookups glyphs i
            (glyphs.length - i) with
        | Except.error e => Except.error e
        | Except.ok (_, glyphs2) => Except.ok glyphs2
    else Except.ok glyphs

/-- `gsub_apply_lookups_frac` (`gsub.rs` lines 1206–1251): restrict the
fraction lookup set to detected digit-run/`'/'`/digit-run spans and apply
the non-fraction set elsewhere. -/
def gsub_apply_lookups_frac {T : Type} (optLookupList : Option (List (LookupCacheItem T)))
    (marksVis : RawGlyph T → Bool) (merge : T → T → T)
    (lookups lookups_frac : List (Nat × Nat)) (glyphs : List (RawGlyph T)) :
    Except SubstError (List (RawGlyph T)) :=
  fracLoop optLookupList marksVis merge lookups lookups_frac (glyphs.length + 1) glyphs 0

/-! ## Arabic joining pass (`scripts/arabic.rs`)

`JoiningType` comes from the external `unicode_joining_type` crate;
`ArabicData` and the joining-state block of `gsub_apply_arabic`
(lines 101–166) are embedded below. -/

/-- `JoiningType` (external `unicode_joining_type` crate). -/
inductive JoiningType where
  | nonJoining
  | leftJoining
  | rightJoining
  | dualJoining
  | joinCausing
  | transparent
  deriving DecidableEq

/-- `ArabicData` from `scripts/arabic.rs`. -/
structure ArabicData where
  joining_type : JoiningType
  feature_tag : Nat
  deriving DecidableEq

/-- `ArabicGlyph` from `scripts/arabic.rs` (a type alias in the source). -/
abbrev ArabicGlyph : Type := RawGlyph ArabicData

/-- `should_skip` (`scripts/arabic.rs` lines 213–223): Transparent or
duplicate-marked glyphs are skipped by the joining pass. -/
def should_skip (arabic_glyph : ArabicGlyph) : Bool :=
  if arabic_glyph.extra_data.joining_type = JoiningType.transparent then true
  else if arabic_glyph.multi_subst_dup then true
  else false

/-- Overwrite the Arabic feature tag of the glyph at index `i`. -/
def setFeatureTag (i : Nat) (t : Nat) (glyphs : List ArabicGlyph) : List ArabicGlyph :=
  modifyAt i (fun g => { g with extra_data := { g.extra_data with feature_tag := t } }) glyphs

/-- The transition-table body of the joining pass (`scripts/arabic.rs`
lines 118–162) for the visible pair `(previous_i, i)`: assign the pair's
feature tags among `isol`/`init`/`medi`/`fina` from both glyphs' joining
types and the previous glyph's current tag. -/
def arabicJoiningStep (glyphs : List ArabicGlyph) (previous_i i : Nat) : List ArabicGlyph :=
  match glyphs[previous_i]?, glyphs[i]? with
  | some gp, some gi =>
    match gp.extra_data.joining_type with
    | JoiningType.leftJoining | JoiningType.dualJoining | JoiningType.joinCausing =>
      match gi.extra_data.joining_type with
      | JoiningType.rightJoining | JoiningType.dualJoining | JoiningType.joinCausing =>
        let glyphs1 := setFeatureTag i tag.FINA glyphs
        if gp.extra_data.feature_tag = tag.ISOL then
          setFeatureTag previous_i tag.INIT glyphs1
        else if gp.extra_data.feature_tag = tag.FINA then
          setFeatureTag previous_i tag.MEDI glyphs1
        else glyphs1
      | JoiningType.leftJoining | JoiningType.nonJoining =>
        let glyphs1 := setFeatureTag i tag.ISOL glyphs
        if gp.extra_data.feature_tag = tag.MEDI then
          setFeatureTag previous_i tag.FINA glyphs1
        else if gp.extra_data.feature_tag = tag.INIT then
          setFeatureTag previous_i tag.ISOL glyphs1
        else glyphs1
      | JoiningType.transparent => glyphs
    | JoiningType.rightJoining | JoiningType.nonJoining =>
      let glyphs1 := setFeatureTag i tag.ISOL glyphs
      if gp.extra_data.feature_tag = tag.MEDI then
        setFeatureTag previous_i tag.FINA glyphs1
      else if gp.extra_data.feature_tag = tag.INIT then
        setFeatureTag previous_i tag.ISOL glyphs1
      else glyphs1
    | JoiningType.transparent => glyphs
  | _, _ => glyphs

/-- The `for i in (previous_i + 1)..arabic_glyphs.len()` loop of the
joining pass: skip Transparent/duplicate glyphs, otherwise run the
transition step and make `i` the new `previous_i`.  `fuel ≥
glyphs.length` suffices since each iteration increases `i`. -/
def arabicJoiningLoop : Nat → List ArabicGlyph → Nat → Nat → List ArabicGlyph
  | 0, glyphs, _, _ => glyphs
  | fuel + 1, glyphs, previous_i, i =>
    match glyphs[i]? with
    | none => glyphs
    | some gi =>
      if should_skip gi then arabicJoiningLoop fuel glyphs previous_i (i + 1)
      else arabicJoiningLoop fuel (arabicJoiningStep glyphs previous_i i) i (i + 1)

/-- The initial `previous_i`: index of the first non-skipped glyph, or 0
when every glyph is skipped. -/
def arabicInitialPrev (glyphs : List ArabicGlyph) : Nat :=
  match glyphs.findIdx? (fun g => !should_skip g) with
  | some i => i
  | none => 0

/-- The joining-state block of `gsub_apply_arabic` (`scripts/arabic.rs`
lines 101–166): a single left-to-right pass over the non-skipped glyphs
assigning the shaping feature tags. -/
def arabicJoiningPass (glyphs : List ArabicGlyph) : List ArabicGlyph :=
  let previous_i := arabicInitialPrev glyphs
  arabicJoiningLoop glyphs.length glyphs previous_i (previous_i + 1)

/-! ## Helpers used by theorem statements -/

/-- Value stored for key `k` in an association list (first hit). -/
def lookupVal (k : Nat) (l : List (Nat × Nat)) : Option Nat :=
  (l.find? (fun p => decide (p.1 = k))).map (fun p => p.2)

/-- The feature tag of the last enabled feature whose lookup-index list
contains `k` (insertion order = `feature_tags` order). -/
def lastAttribution (findLangsysFeature : Nat → Option (List Nat))
    (feature_tags : List Nat) (k : Nat) : Option Nat :=
  feature_tags.foldl
    (fun acc feature_tag =>
      match findLangsysFeature feature_tag with
      | some lookup_indices => if k ∈ lookup_indices then some feature_tag else acc
      | none => acc)
    none

/-- Whether the glyph at index `j` exists and has a decimal-digit origin. -/
def digitAt {T : Type} (glyphs : List (RawGlyph T)) (j : Nat) : Bool :=
  match glyphs[j]? with
  | some g => isDigitOrigin g
  | none => false

/-- The four Arabic shaping feature tags. -/
def arabicShapeTags : List Nat := [tag.ISOL, tag.INIT, tag.MEDI, tag.FINA]

/-- The visible glyphs following position `i` that a ligature with
`ncomp` components absorbs. -/
def absorbedGlyphs {T : Type} (vis : RawGlyph T → Bool) (glyphs : List (RawGlyph T))
    (i ncomp : Nat) : List (RawGlyph T) :=
  ((glyphs.drop (i + 1)).filter vis).take ncomp

/-- The effect of `singlesubst` on the glyph it rewrites, as a pointwise
function (proved below to agree with the loop). -/
def singleCore {T : Type} (subtables : List (Nat → Option Nat)) (feature_tag : Nat)
    (g : RawGlyph T) : RawGlyph T :=
  match g.glyph_index with
  | some glyph_index =>
    match firstSome (fun st => st glyph_index) subtables with
    | some output_glyph =>
      { g with
        glyph_index := some output_glyph
        glyph_origin := GlyphOrigin.direct
        is_vert_alt :=
          if feature_tag = tag.VERT ∨ feature_tag = tag.VRT2 then true else g.is_vert_alt }
    | none => g
  | none => g

/-- The pointwise effect of one `SingleSubst` loop iteration on the glyph
it visits (proved below to agree with the loop). -/
def singleStep {T : Type} (subtables : List (Nat → Option Nat)) (feature_tag : Nat)
    (vis pred : RawGlyph T → Bool) (g : RawGlyph T) : RawGlyph T :=
  if vis g && pred g then singleCore subtables feature_tag g else g

/-! ## Concrete instances used in counterexamples and witnesses -/

/-- A minimal glyph over `T = Unit` with the given resolved index and
origin. -/
def mkGlyph (gi : Option Nat) (origin : GlyphOrigin) : RawGlyph Unit :=
  { unicodes := []
    glyph_index := gi
    liga_component_pos := 0
    glyph_origin := origin
    small_caps := false
    multi_subst_dup := false
    is_vert_alt := false
    fake_bold := false
    fake_italic := false
    variation := none
    extra_data := () }

/-- Everything-visible match predicate over `Unit` glyphs. -/
def allVis : RawGlyph Unit → Bool := fun _ => true

/-- Nothing-is-a-mark predicate over `Unit` glyphs. -/
def noMarks : RawGlyph Unit → Bool := fun _ => false

/-- LangSys for the C2 counterexample: feature tags 1 and 2 both declare
lookup index 5. -/
def exC2find : Nat → Option (List Nat) := fun t =>
  if t = 1 then some [5] else if t = 2 then some [5] else none

/-- A glyph whose resolved index 5 is out of range for any small font. -/
def exBigGlyph : RawGlyph Unit := mkGlyph (some 5) GlyphOrigin.direct

/-- Chain-context subtable that matches any glyph (empty input tail) and
invokes nested lookup `next` at the matched position. -/
def exChainSub (next : Nat) : ContextLookupModel := fun _ => some ⟨0, [(0, next)]⟩

/-- Chain-context subtable that matches any glyph and invokes nothing. -/
def exChainEnd : ContextLookupModel := fun _ => some ⟨0, []⟩

/-- A chain-context lookup item over the given subtable. -/
def chainItem (m : ContextLookupModel) : LookupCacheItem Unit :=
  ⟨allVis, SubstLookup.chainContextSubst [m]⟩

/-- Lookup list whose lookup 0 chains to 1, 1 to 2, 2 to 3 (three nested
chain-context invocations below the top-level lookup). -/
def exDeep3List : List (LookupCacheItem Unit) :=
  [chainItem (exChainSub 1), chainItem (exChainSub 2), chainItem (exChainSub 3),
    chainItem exChainEnd]

/-- Lookup list whose lookup 0 chains to 1 and 1 to 2 (two nested
chain-context invocations below the top-level lookup). -/
def exDeep2List : List (LookupCacheItem Unit) :=
  [chainItem (exChainSub 1), chainItem (exChainSub 2), chainItem exChainEnd]

/-- One-glyph sequence for the recursion-limit runs. -/
def exOneGlyph : List (RawGlyph Unit) := [mkGlyph (some 0) GlyphOrigin.direct]

/-- Fraction demonstration sequence `a 1 / 2 b` (origins), glyph ids 10–14. -/
def exFracGlyphs : List (RawGlyph Unit) :=
  [mkGlyph (some 10) (GlyphOrigin.char 'a'),
    mkGlyph (some 11) (GlyphOrigin.char '1'),
    mkGlyph (some 12) (GlyphOrigin.char '/'),
    mkGlyph (some 13) (GlyphOrigin.char '2'),
    mkGlyph (some 14) (GlyphOrigin.char 'b')]

/-- Bare-slash sequence `a / b` with no adjacent digits. -/
def exBareSlashGlyphs : List (RawGlyph Unit) :=
  [mkGlyph (some 10) (GlyphOrigin.char 'a'),
    mkGlyph (some 12) (GlyphOrigin.char '/'),
    mkGlyph (some 14) (GlyphOrigin.char 'b')]

/-- Lookup list for the fraction runs: lookup 0 maps every glyph to 80
(the non-fraction set), lookup 1 maps every glyph to 90 (the fraction
set). -/
def exFracLookupList : List (LookupCacheItem Unit) :=
  [⟨allVis, SubstLookup.singleSubst [fun _ => some 80]⟩,
    ⟨allVis, SubstLookup.singleSubst [fun _ => some 90]⟩]

/-- The resolved non-fraction lookup set. -/
def exFracLookups : List (Nat × Nat) := [(0, tag.LIGA)]

/-- The resolved fraction lookup set. -/
def exFracLookupsFrac : List (Nat × Nat) := [(1, tag.FRAC)]

/-- An Arabic letter glyph with the given joining type (initial tag
`isol`, as produced by the `ArabicGlyph::from` conversion). -/
def mkArabicGlyph (jt : JoiningType) : ArabicGlyph :=
  { unicodes := []
    glyph_index := some 1
    liga_component_pos := 0
    glyph_origin := GlyphOrigin.direct
    small_caps := false
    multi_subst_dup := false
    is_vert_alt := false
    fake_bold := false
    fake_italic := false
    variation := none
    extra_data := { joining_type := jt, feature_tag := tag.ISOL } }

/-- Three dual-joining letters in a row. -/
def exDual3 : List ArabicGlyph :=
  [mkArabicGlyph JoiningType.dualJoining, mkArabicGlyph JoiningType.dualJoining,
    mkArabicGlyph JoiningType.dualJoining]

/-- A dual-joining letter between two non-joining glyphs. -/
def exIsolated3 : List ArabicGlyph :=
  [mkArabicGlyph JoiningType.nonJoining, mkArabicGlyph JoiningType.dualJoining,
    mkArabicGlyph JoiningType.nonJoining]

/-- The cumulative merge a ligature trigger performs on the glyphs it
absorbs: unicodes are concatenated in order, `extra_data` merged via the
type-specific merge function. -/
def absorbInto {T : Type} (merge : T → T → T) (trigger : RawGlyph T)
    (l : List (RawGlyph T)) : RawGlyph T :=
  l.foldl
    (fun t g =>
      { t with
        unicodes := t.unicodes ++ g.unicodes
        extra_data := merge t.extra_data g.extra_data })
    trigger

/-- The `GlyphData` merge for `T = Unit` (`impl GlyphData for ()`). -/
def mergeUnit : Unit → Unit → Unit := fun _ _ => ()

/-- Two-glyph sequence for the ligature witness: trigger with index 0
followed by a component glyph with index 5. -/
def exLigGlyphs : List (RawGlyph Unit) :=
  [mkGlyph (some 0) GlyphOrigin.direct, mkGlyph (some 5) GlyphOrigin.direct]

/-! # Theorems

General lemmas about the list helpers, then the per-claim results. -/

theorem length_modifyAt {α : Type u} (i : Nat) (f : α → α) (l : List α) :
    (modifyAt i f l).length = l.length := by
  induction l generalizing i with
  | nil => simp [modifyAt]
  | cons a rest ih =>
    cases i with
    | zero => rfl
    | succ n => simpa [modifyAt] using ih n

theorem modifyAt_append {α : Type u} (f : α → α) (pre : List α) (x : α) (ys : List α) :
    modifyAt pre.length f (pre ++ x :: ys) = pre ++ f x :: ys := by
  induction pre with
  | nil => rfl
  | cons a rest ih => simpa [modifyAt] using ih

theorem getElem?_modifyAt {α : Type u} (i j : Nat) (f : α → α) (l : List α) :
    (modifyAt i f l)[j]? = if i = j then (l[j]?).map f else l[j]? := by
  induction l generalizing i j with
  | nil => simp [modifyAt]
  | cons a rest ih =>
    cases i with
    | zero =>
      cases j with
      | zero => simp [modifyAt]
      | succ m => simp [modifyAt]
    | succ n =>
      cases j with
      | zero => simp [modifyAt]
      | succ m =>
        simp only [modifyAt, List.getElem?_cons_succ]
        rw [ih n m]
        by_cases h : n = m <;> simp [h]

theorem mem_modifyAt {α : Type u} {x : α} {i : Nat} {f : α → α} {l : List α}
    (h : x ∈ modifyAt i f l) : x ∈ l ∨ ∃ y ∈ l, x = f y := by
  induction l generalizing i with
  | nil => simp [modifyAt] at h
  | cons a rest ih =>
    cases i with
    | zero =>
      rcases List.mem_cons.mp h with h1 | h1
      · exact Or.inr ⟨a, List.mem_cons_self a rest, h1⟩
      · exact Or.inl (List.mem_cons_of_mem a h1)
    | succ n =>
      rcases List.mem_cons.mp h with h1 | h1
      · exact Or.inl (h1 ▸ List.mem_cons_self a rest)
      · rcases ih h1 with h2 | ⟨y, hy, hxy⟩
        · exact Or.inl (List.mem_cons_of_mem a h2)
        · exact Or.inr ⟨y, List.mem_cons_of_mem a hy, hxy⟩

theorem getElem?_append_cons {α : Type u} (pre : List α) (x : α) (ys : List α) :
    (pre ++ x :: ys)[pre.length]? = some x := by
  induction pre with
  | nil => simp
  | cons a rest ih => simpa using ih

theorem insertAt_length_append {α : Type u} (xs : List α) (a : α) (ys : List α) :
    insertAt xs.length a (xs ++ ys) = xs ++ a :: ys := by
  induction xs with
  | nil => cases ys <;> rfl
  | cons b rest ih => simpa [insertAt] using ih

theorem firstSome_eq_some {α β : Type u} {f : α → Option β} {l : List α} {b : β}
    (h : firstSome f l = some b) : ∃ a ∈ l, f a = some b := by
  induction l with
  | nil => simp [firstSome] at h
  | cons a rest ih =>
    by_cases ha : (f a).isSome
    · rcases Option.isSome_iff_exists.mp ha with ⟨c, hc⟩
      refine ⟨a, List.mem_cons_self a rest, ?_⟩
      simpa [firstSome, hc] using h
    · have hnone : f a = none := Option.not_isSome_iff_eq_none.mp ha
      rcases ih (by simpa [firstSome, hnone] using h) with ⟨x, hx, hfx⟩
      exact ⟨x, List.mem_cons_of_mem a hx, hfx⟩

/-! ## C5 — `replace_missing_glyphs` -/

/-- C5 (counterexample): the claim fails at `num_glyphs = 0` — the
replacement glyph 0 itself has resolved index `0 ≥ num_glyphs`, so a
glyph with out-of-range index remains after the pass. -/
theorem replace_missing_glyphs_zero_counterexample :
    ∃ g, g ∈ replace_missing_glyphs [exBigGlyph] 0 ∧
      ∃ gi, g.glyph_index = some gi ∧ 0 ≤ gi :=
  ⟨mkGlyph (some 0) GlyphOrigin.direct, by decide, 0, rfl, Nat.zero_le 0⟩

/-- C5 (amended: additionally require `0 < num_glyphs`, the failing case
being `num_glyphs = 0` where the replacement glyph 0 is itself out of
range): after `replace_missing_glyphs` no glyph with resolved index
`≥ num_glyphs` remains; every glyph that had one is replaced by glyph 0
with unicodes emptied, origin `Direct`, and flags/component position/
variation reset; in-range and unresolved glyphs are untouched. -/
theorem replace_missing_glyphs_spec {T : Type} (glyphs : List (RawGlyph T))
    (num_glyphs : Nat) (h : 0 < num_glyphs) :
    (∀ g ∈ replace_missing_glyphs glyphs num_glyphs,
      ∀ gi, g.glyph_index = some gi → gi < num_glyphs) ∧
    (∀ (j : Nat) (g : RawGlyph T), glyphs[j]? = some g →
      (∀ gi, g.glyph_index = some gi → num_glyphs ≤ gi →
        (replace_missing_glyphs glyphs num_glyphs)[j]? = some
          { unicodes := []
            glyph_index := some 0
            liga_component_pos := 0
            glyph_origin := GlyphOrigin.direct
            small_caps := false
            multi_subst_dup := false
            is_vert_alt := false
            fake_bold := false
            fake_italic := false
            variation := none
            extra_data := g.extra_data }) ∧
      (∀ gi, g.glyph_index = some gi → gi < num_glyphs →
        (replace_missing_glyphs glyphs num_glyphs)[j]? = some g) ∧
      (g.glyph_index = none → (replace_missing_glyphs glyphs num_glyphs)[j]? = some g)) := by
  constructor
  · intro g hg gi hgi
    rcases List.mem_map.mp hg with ⟨x, _, hfx⟩
    rw [← hfx] at hgi
    rcases hx : x.glyph_index with _ | k
    · simp [hx] at hgi
    · by_cases hk : num_glyphs ≤ k
      · simp [hx, hk] at hgi
        omega
      · simp [hx, hk] at hgi
        omega
  · intro j g hj
    refine ⟨?_, ?_, ?_⟩
    · intro gi hgi hge
      rw [replace_missing_glyphs, List.getElem?_map, hj]
      simp [hgi, hge]
    · intro gi hgi hlt
      rw [replace_missing_glyphs, List.getElem?_map, hj]
      simp [hgi, Nat.not_le.mpr hlt]
    · intro hnone
      rw [replace_missing_glyphs, List.getElem?_map, hj]
      simp [hnone]

/-- Witness for C5's amended theorem at `num_glyphs = 1`: the out-of-range
glyph is replaced wholesale. -/
theorem replace_missing_glyphs_spec_witness :
    (replace_missing_glyphs [exBigGlyph] 1)[0]? = some
      { unicodes := []
        glyph_index := some 0
        liga_component_pos := 0
        glyph_origin := GlyphOrigin.direct
        small_caps := false
        multi_subst_dup := false
        is_vert_alt := false
        fake_bold := false
        fake_italic := false
        variation := none
        extra_data := exBigGlyph.extra_data } :=
  ((replace_missing_glyphs_spec [exBigGlyph] 1 (by decide)).2 0 exBigGlyph rfl).1 5 rfl
    (by decide)

/-! ## C7 — `singlesubst` -/

/-- C7: when a single substitution `A→B` applies at `i`, the sequence
length is unchanged, every other position is untouched, and the glyph at
`i` gets glyph index `B`, origin `Direct` and (its unicodes preserved)
the vertical-alternate flag set exactly when the active feature tag is
`vert` or `vrt2` (over a glyph not already flagged). -/
theorem singlesubst_spec {T : Type} (subtables : List (Nat → Option Nat)) (t i : Nat)
    (glyphs : List (RawGlyph T)) (B : Nat)
    (hw : singlesubst_would_apply subtables i glyphs = some B) (hi : i < glyphs.length) :
    (singlesubst subtables t i glyphs).length = glyphs.length ∧
    (∀ j, j ≠ i → (singlesubst subtables t i glyphs)[j]? = glyphs[j]?) ∧
    ∃ g', (singlesubst subtables t i glyphs)[i]? = some g' ∧
      g'.glyph_index = some B ∧
      g'.glyph_origin = GlyphOrigin.direct ∧
      g'.unicodes = glyphs[i].unicodes ∧
      ((t = tag.VERT ∨ t = tag.VRT2) → g'.is_vert_alt = true) ∧
      (¬(t = tag.VERT ∨ t = tag.VRT2) → g'.is_vert_alt = glyphs[i].is_vert_alt) ∧
      (glyphs[i].is_vert_alt = false →
        (g'.is_vert_alt = true ↔ (t = tag.VERT ∨ t = tag.VRT2))) := by
  have hget : glyphs[i]? = some glyphs[i] := List.getElem?_eq_getElem hi
  rw [singlesubst, hw]
  refine ⟨length_modifyAt _ _ _, ?_, ?_⟩
  · intro j hji
    rw [getElem?_modifyAt, if_neg (fun hij => hji hij.symm)]
  · refine
      ⟨{ unicodes := glyphs[i].unicodes
         glyph_index := some B
         liga_component_pos := glyphs[i].liga_component_pos
         glyph_origin := GlyphOrigin.direct
         small_caps := glyphs[i].small_caps
         multi_subst_dup := glyphs[i].multi_subst_dup
         is_vert_alt := if t = tag.VERT ∨ t = tag.VRT2 then true else glyphs[i].is_vert_alt
         fake_bold := glyphs[i].fake_bold
         fake_italic := glyphs[i].fake_italic
         variation := glyphs[i].variation
         extra_data := glyphs[i].extra_data }, ?_, rfl, rfl, rfl, ?_, ?_, ?_⟩
    · rw [getElem?_modifyAt, if_pos rfl, hget]
      rfl
    · intro hv
      rcases hv with hv | hv <;> simp [hv]
    · intro hv
      have h1 : t ≠ tag.VERT := fun he => hv (Or.inl he)
      have h2 : t ≠ tag.VRT2 := fun he => hv (Or.inr he)
      simp [h1, h2]
    · intro hfalse
      by_cases hv : t = tag.VERT ∨ t = tag.VRT2
      · rw [if_pos hv]
        simp [hv]
      · rw [if_neg hv]
        simp [hfalse, hv]

/-- Witness for C7 at a concrete one-glyph sequence and subtable. -/
theorem singlesubst_spec_witness :
    (singlesubst [fun _ => some 7] tag.CALT 0 exOneGlyph).length = exOneGlyph.length :=
  (singlesubst_spec [fun _ => some 7] tag.CALT 0 exOneGlyph 7 rfl (by decide)).1

/-! ## C4 — `multiplesubst` -/

theorem modifyAt_eq_take_cons_drop {α : Type u} (f : α → α) (l : List α) (i : Nat)
    (h : i < l.length) :
    modifyAt i f l = l.take i ++ f l[i] :: l.drop (i + 1) := by
  induction l generalizing i with
  | nil => simp at h
  | cons a rest ih =>
    cases i with
    | zero => simp [modifyAt]
    | succ n =>
      have hn : n < rest.length := by simpa using h
      simp [modifyAt, ih n hn]

theorem multiInsert_append {T : Type} (seq : List Nat) (pre : List (RawGlyph T))
    (gcur : RawGlyph T) (mid post : List (RawGlyph T)) :
    multiInsert pre.length seq (mid.length + 1) (pre ++ (gcur :: (mid ++ post))) =
      pre ++ (gcur :: ((mid ++ seq.map (dupGlyph gcur)) ++ post)) := by
  induction seq generalizing mid with
  | nil => simp [multiInsert]
  | cons gi rest ih =>
    rw [multiInsert]
    split
    case _ g hsome =>
      rw [getElem?_append_cons] at hsome
      cases hsome
      have hlist : pre ++ (gcur :: (mid ++ post)) = (pre ++ gcur :: mid) ++ post := by
        simp
      have hlen : pre.length + (mid.length + 1) = (pre ++ gcur :: mid).length := by
        simp
      rw [hlist, hlen, insertAt_length_append]
      have hshape : (pre ++ gcur :: mid) ++ dupGlyph gcur gi :: post =
          pre ++ (gcur :: ((mid ++ [dupGlyph gcur gi]) ++ post)) := by
        simp
      rw [hshape]
      have hmid : mid.length + 1 + 1 = (mid ++ [dupGlyph gcur gi]).length + 1 := by
        simp
      rw [hmid, ih (mid ++ [dupGlyph gcur gi])]
      simp
    case _ hnone =>
      rw [getElem?_append_cons] at hnone
      cases hnone

theorem multiInsert_cons {T : Type} (seq : List Nat) (pre : List (RawGlyph T))
    (gcur : RawGlyph T) (post : List (RawGlyph T)) :
    multiInsert pre.length seq 1 (pre ++ (gcur :: post)) =
      pre ++ (gcur :: (seq.map (dupGlyph gcur) ++ post)) := by
  have h := multiInsert_append seq pre gcur [] post
  simpa using h

/-- C4: when a multiple substitution applies at `i` with replacement
sequence `seq` of length `N`: `N = 0` deletes the glyph at `i` (length
drops by one, no fault); `N > 0` keeps the glyph at `i` with its index
replaced by replacement glyph 0 and origin `Direct`, inserts the
remaining `N − 1` replacements right after `i` as duplicate-flagged
copies inheriting the original's unicodes/flags/extra data, reports the
new occupancy count `N`, and grows the length by `N − 1`. -/
theorem multiplesubst_spec {T : Type} (subtables : List (Nat → Option (List Nat)))
    (i : Nat) (glyphs : List (RawGlyph T)) (seq : List Nat)
    (hw : multiplesubst_would_apply subtables i glyphs = some seq)
    (hi : i < glyphs.length) :
    (seq = [] →
      multiplesubst subtables i glyphs = some (glyphs.take i ++ glyphs.drop (i + 1), 0) ∧
      (glyphs.take i ++ glyphs.drop (i + 1)).length + 1 = glyphs.length) ∧
    (∀ s0 rest, seq = s0 :: rest →
      multiplesubst subtables i glyphs = some
        (glyphs.take i ++
          ({ glyphs[i] with glyph_index := some s0, glyph_origin := GlyphOrigin.direct } ::
            rest.map (dupGlyph
              { glyphs[i] with glyph_index := some s0, glyph_origin := GlyphOrigin.direct })) ++
          glyphs.drop (i + 1), seq.length) ∧
      (glyphs.take i ++
        ({ glyphs[i] with glyph_index := some s0, glyph_origin := GlyphOrigin.direct } ::
          rest.map (dupGlyph
            { glyphs[i] with glyph_index := some s0, glyph_origin := GlyphOrigin.direct })) ++
        glyphs.drop (i + 1)).length = glyphs.length + rest.length) ∧
    (∀ (g : RawGlyph T) (s : Nat),
      (dupGlyph g s).multi_subst_dup = true ∧
      (dupGlyph g s).unicodes = g.unicodes ∧
      (dupGlyph g s).extra_data = g.extra_data ∧
      (dupGlyph g s).small_caps = g.small_caps ∧
      (dupGlyph g s).is_vert_alt = g.is_vert_alt ∧
      (dupGlyph g s).fake_bold = g.fake_bold ∧
      (dupGlyph g s).fake_italic = g.fake_italic ∧
      (dupGlyph g s).variation = g.variation ∧
      (dupGlyph g s).liga_component_pos = 0 ∧
      (dupGlyph g s).glyph_index = some s ∧
      (dupGlyph g s).glyph_origin = GlyphOrigin.direct) := by
  refine ⟨?_, ?_, ?_⟩
  · intro hseq
    subst hseq
    constructor
    · rw [multiplesubst, hw]
      simp [List.eraseIdx_eq_take_drop_succ]
    · have h1 : (glyphs.take i).length = i := by
        simp [Nat.le_of_lt hi]
      have h2 : (glyphs.drop (i + 1)).length = glyphs.length - (i + 1) := by simp
      simp only [List.length_append, h1, h2]
      omega
  · intro s0 rest hseq
    subst hseq
    constructor
    · rw [multiplesubst, hw]
      simp only [List.length_cons, Nat.succ_eq_add_one, if_pos (Nat.succ_pos rest.length)]
      rw [modifyAt_eq_take_cons_drop _ _ _ hi]
      have hpre : (glyphs.take i).length = i := by
        simp [Nat.le_of_lt hi]
      have hmi := multiInsert_append (T := T) rest (glyphs.take i)
        { glyphs[i] with glyph_index := some s0, glyph_origin := GlyphOrigin.direct }
        [] (glyphs.drop (i + 1))
      rw [hpre] at hmi
      simp only [List.nil_append, List.length_nil, Nat.zero_add] at hmi
      rw [hmi]
      simp [List.append_assoc]
    · have h1 : (glyphs.take i).length = i := by
        simp [Nat.le_of_lt hi]
      have h2 : (glyphs.drop (i + 1)).length = glyphs.length - (i + 1) := by simp
      simp only [List.length_append, List.length_cons, List.length_map, h1, h2]
      omega
  · intro g s
    exact ⟨rfl, rfl, rfl, rfl, rfl, rfl, rfl, rfl, rfl, rfl, rfl⟩

/-- Witness for C4 at a concrete 1→3 substitution over a one-glyph
sequence. -/
theorem multiplesubst_spec_witness :
    multiplesubst [fun _ => some [21, 22, 23]] 0 exOneGlyph = some
      (exOneGlyph.take 0 ++
        ({ exOneGlyph[0] with glyph_index := some 21, glyph_origin := GlyphOrigin.direct } ::
          [22, 23].map (dupGlyph
            { exOneGlyph[0] with glyph_index := some 21, glyph_origin := GlyphOrigin.direct })) ++
        exOneGlyph.drop 1, 3) :=
  (((multiplesubst_spec [fun _ => some [21, 22, 23]] 0 exOneGlyph [21, 22, 23] rfl
    (by decide)).2.1 21 [22, 23] rfl).1)

/-! ## C2 — `build_lookups` -/

theorem lookupVal_cons (k k1 v1 : Nat) (rest : List (Nat × Nat)) :
    lookupVal k ((k1, v1) :: rest) = if k1 = k then some v1 else lookupVal k rest := by
  by_cases h : k1 = k <;> simp [lookupVal, List.find?, h]

theorem mem_btreeInsert {x : Nat × Nat} {k v : Nat} {l : List (Nat × Nat)}
    (h : x ∈ btreeInsert k v l) : x = (k, v) ∨ x ∈ l := by
  induction l with
  | nil => simpa [btreeInsert] using h
  | cons p rest ih =>
    rcases p with ⟨k2, v2⟩
    by_cases h1 : k < k2
    · simp only [btreeInsert, if_pos h1] at h
      rcases List.mem_cons.mp h with h | h
      · exact Or.inl h
      · exact Or.inr h
    · by_cases h2 : k = k2
      · simp only [btreeInsert, if_neg h1, if_pos h2] at h
        rcases List.mem_cons.mp h with h | h
        · exact Or.inl h
        · exact Or.inr (List.mem_cons_of_mem _ h)
      · simp only [btreeInsert, if_neg h1, if_neg h2] at h
        rcases List.mem_cons.mp h with h | h
        · exact Or.inr (by rw [h]; exact List.mem_cons_self _ _)
        · rcases ih h with h3 | h3
          · exact Or.inl h3
          · exact Or.inr (List.mem_cons_of_mem _ h3)

theorem lookupVal_btreeInsert (k k1 v : Nat) (l : List (Nat × Nat)) :
    lookupVal k (btreeInsert k1 v l) = if k = k1 then some v else lookupVal k l := by
  induction l with
  | nil =>
    by_cases hk : k1 = k
    · subst hk
      simp [btreeInsert, lookupVal_cons]
    · have hk2 : ¬k = k1 := fun he => hk he.symm
      simp [btreeInsert, lookupVal_cons, lookupVal, hk, hk2]
  | cons p rest ih =>
    rcases p with ⟨k2, v2⟩
    by_cases h1 : k1 < k2
    · simp only [btreeInsert, if_pos h1]
      by_cases hk : k1 = k
      · subst hk
        simp [lookupVal_cons]
      · have hk2 : ¬k = k1 := fun he => hk he.symm
        simp [lookupVal_cons, hk, hk2]
    · by_cases h2 : k1 = k2
      · subst h2
        simp only [btreeInsert, if_neg h1, if_pos rfl]
        by_cases hk : k1 = k
        · subst hk
          simp [lookupVal_cons]
        · have hk2 : ¬k = k1 := fun he => hk he.symm
          simp [lookupVal_cons, hk, hk2]
      · simp only [btreeInsert, if_neg h1, if_neg h2]
        by_cases hk : k2 = k
        · have hk1 : ¬k = k1 := fun he => h2 ((hk.trans he).symm)
          simp [lookupVal_cons, hk, hk1]
        · have hstep : lookupVal k ((k2, v2) :: btreeInsert k1 v rest) =
              lookupVal k (btreeInsert k1 v rest) := by
            simp [lookupVal_cons, hk]
          rw [hstep, ih]
          by_cases hkk : k = k1 <;> simp [lookupVal_cons, hk, hkk]

theorem pairwise_btreeInsert (k v : Nat) (l : List (Nat × Nat))
    (h : l.Pairwise (fun a b => a.1 < b.1)) :
    (btreeInsert k v l).Pairwise (fun a b => a.1 < b.1) := by
  induction l with
  | nil => simp [btreeInsert]
  | cons p rest ih =>
    rcases p with ⟨k2, v2⟩
    rcases List.pairwise_cons.mp h with ⟨hhead, htail⟩
    by_cases h1 : k < k2
    · simp only [btreeInsert, if_pos h1]
      refine List.pairwise_cons.mpr ⟨?_, h⟩
      intro b hb
      rcases List.mem_cons.mp hb with hb | hb
      · rw [hb]
        exact h1
      · exact Nat.lt_trans h1 (hhead b hb)
    · by_cases h2 : k = k2
      · simp only [btreeInsert, if_neg h1, if_pos h2]
        refine List.pairwise_cons.mpr ⟨?_, htail⟩
        intro b hb
        rw [show ((k, v) : Nat × Nat).1 = k2 from h2]
        exact hhead b hb
      · simp only [btreeInsert, if_neg h1, if_neg h2]
        refine List.pairwise_cons.mpr ⟨?_, ih htail⟩
        intro b hb
        rcases mem_btreeInsert hb with hb2 | hb2
        · rw [hb2]
          exact Nat.lt_of_le_of_ne (Nat.le_of_not_lt h1) (fun he => h2 he.symm)
        · exact hhead b hb2

theorem lookupVal_insertIndices (t k : Nat) (idxs : List Nat) (m : List (Nat × Nat)) :
    lookupVal k (insertIndices t idxs m) =
      if k ∈ idxs then some t else lookupVal k m := by
  induction idxs generalizing m with
  | nil => simp [insertIndices]
  | cons j rest ih =>
    rw [insertIndices, List.foldl_cons]
    rw [show (rest.foldl (fun m lookup_index => btreeInsert lookup_index t m)
        (btreeInsert j t m)) = insertIndices t rest (btreeInsert j t m) from rfl]
    rw [ih, lookupVal_btreeInsert]
    by_cases hk : k ∈ rest
    · simp [hk]
    · by_cases hj : k = j <;> simp [hk, hj]

theorem pairwise_insertIndices (t : Nat) (idxs : List Nat) (m : List (Nat × Nat))
    (h : m.Pairwise (fun a b => a.1 < b.1)) :
    (insertIndices t idxs m).Pairwise (fun a b => a.1 < b.1) := by
  induction idxs generalizing m with
  | nil => simpa [insertIndices] using h
  | cons j rest ih =>
    rw [insertIndices, List.foldl_cons]
    exact ih (btreeInsert j t m) (pairwise_btreeInsert j t m h)

theorem build_lookups_aux (findLangsysFeature : Nat → Option (List Nat))
    (feature_tags : List Nat) (m : List (Nat × Nat))
    (hm : m.Pairwise (fun a b => a.1 < b.1)) :
    (feature_tags.foldl
        (fun lookups feature_tag =>
          match findLangsysFeature feature_tag with
          | some lookup_indices => insertIndices feature_tag lookup_indices lookups
          | none => lookups) m).Pairwise (fun a b => a.1 < b.1) ∧
    ∀ k, lookupVal k
        (feature_tags.foldl
          (fun lookups feature_tag =>
            match findLangsysFeature feature_tag with
            | some lookup_indices => insertIndices feature_tag lookup_indices lookups
            | none => lookups) m) =
      feature_tags.foldl
        (fun acc feature_tag =>
          match findLangsysFeature feature_tag with
          | some lookup_indices => if k ∈ lookup_indices then some feature_tag else acc
          | none => acc) (lookupVal k m) := by
  induction feature_tags generalizing m with
  | nil => exact ⟨hm, fun k => rfl⟩
  | cons t rest ih =>
    rcases hf : findLangsysFeature t with _ | idxs
    · have := ih m hm
      simpa [hf] using this
    · have hm2 := pairwise_insertIndices t idxs m hm
      have := ih (insertIndices t idxs m) hm2
      refine ⟨by simpa [hf] using this.1, ?_⟩
      intro k
      have h2 := this.2 k
      rw [lookupVal_insertIndices] at h2
      simpa [hf] using h2

/-- C2 (counterexample): with features 1 and 2 both declaring lookup 5 and
feature 1 enabled first, `build_lookups` attributes lookup 5 to feature 2
— the feature that inserted it *last* — not to feature 1 as the claim
states (`BTreeMap::insert` replaces the stored value). -/
theorem build_lookups_first_attribution_counterexample :
    build_lookups exC2find [1, 2] = [(5, 2)] ∧ ((5, 2) : Nat × Nat) ≠ (5, 1) := by
  constructor
  · rfl
  · decide

/-- C2 (amended: a lookup index shared by several enabled features is
attributed to the feature that inserted it *last*, not first): the lookup
list produced by `build_lookups` is sorted in strictly ascending
lookup-index order — hence contains each lookup index at most once,
independent of feature declaration order — and the tag stored for each
lookup index is that of the last enabled feature declaring it. -/
theorem build_lookups_spec (findLangsysFeature : Nat → Option (List Nat))
    (feature_tags : List Nat) :
    (build_lookups findLangsysFeature feature_tags).Pairwise (fun a b => a.1 < b.1) ∧
    ((build_lookups findLangsysFeature feature_tags).map Prod.fst).Nodup ∧
    ∀ k, lookupVal k (build_lookups findLangsysFeature feature_tags) =
      lastAttribution findLangsysFeature feature_tags k := by
  have h := build_lookups_aux findLangsysFeature feature_tags [] (List.Pairwise.nil)
  refine ⟨h.1, ?_, ?_⟩
  · have hp : ((build_lookups findLangsysFeature feature_tags).map Prod.fst).Pairwise
        (fun a b => a < b) := List.Pairwise.map Prod.fst (fun _ _ hab => hab) h.1
    exact List.Pairwise.imp Nat.ne_of_lt hp
  · intro k
    have h2 := h.2 k
    rw [show lookupVal k ([] : List (Nat × Nat)) = none from rfl] at h2
    exact h2

/-! ## C3 / C6 — ligature substitution -/

theorem matchFrontAux_le {T : Type} (vis : RawGlyph T → Bool) (cs : List Nat)
    (gs : List (RawGlyph T)) (h : matchFrontAux vis cs gs = true) :
    cs.length ≤ (gs.filter vis).length := by
  induction gs generalizing cs with
  | nil =>
    cases cs with
    | nil => simp
    | cons c cs2 => simp [matchFrontAux] at h
  | cons g rest ih =>
    cases cs with
    | nil => simp
    | cons c cs2 =>
      by_cases hv : vis g
      · simp only [matchFrontAux, if_pos hv, Bool.and_eq_true] at h
        have h2 := ih cs2 h.2
        have h3 : ((g :: rest).filter vis).length = (rest.filter vis).length + 1 := by
          simp [List.filter_cons, hv]
        rw [h3, List.length_cons]
        omega
      · simp only [matchFrontAux, if_neg hv] at h
        have h2 := ih (c :: cs2) h
        simpa [List.filter_cons, hv] using h2

theorem ligTrailingMarks_length {T : Type} (marksVis : RawGlyph T → Bool) (m : Nat)
    (l : List (RawGlyph T)) : (ligTrailingMarks marksVis m l).length = l.length := by
  induction l with
  | nil => rfl
  | cons g rest ih =>
    by_cases hv : marksVis g <;> simp [ligTrailingMarks, hv, ih]

theorem ligTrailingMarks_of_no_marks {T : Type} (marksVis : RawGlyph T → Bool) (m : Nat)
    (l : List (RawGlyph T)) (h : ∀ g, marksVis g = false) :
    ligTrailingMarks marksVis m l = l := by
  cases l with
  | nil => rfl
  | cons g rest => simp [ligTrailingMarks, h g]

theorem absorbInto_unicodes {T : Type} (merge : T → T → T) (l : List (RawGlyph T))
    (trigger : RawGlyph T) :
    (absorbInto merge trigger l).unicodes =
      trigger.unicodes ++ (l.map (fun g => g.unicodes)).flatten := by
  induction l generalizing trigger with
  | nil => simp [absorbInto]
  | cons g rest ih =>
    rw [absorbInto, List.foldl_cons]
    rw [show (rest.foldl _ _ : RawGlyph T) = absorbInto merge
      { trigger with
        unicodes := trigger.unicodes ++ g.unicodes
        extra_data := merge trigger.extra_data g.extra_data } rest from rfl]
    rw [ih]
    simp

theorem absorbInto_extra {T : Type} (merge : T → T → T) (l : List (RawGlyph T))
    (trigger : RawGlyph T) :
    (absorbInto merge trigger l).extra_data =
      l.foldl (fun a g => merge a g.extra_data) trigger.extra_data := by
  induction l generalizing trigger with
  | nil => simp [absorbInto]
  | cons g rest ih =>
    rw [absorbInto, List.foldl_cons]
    rw [show (rest.foldl _ _ : RawGlyph T) = absorbInto merge
      { trigger with
        unicodes := trigger.unicodes ++ g.unicodes
        extra_data := merge trigger.extra_data g.extra_data } rest from rfl]
    rw [ih]
    rfl

theorem absorbInto_glyph_index {T : Type} (merge : T → T → T) (l : List (RawGlyph T))
    (trigger : RawGlyph T) :
    (absorbInto merge trigger l).glyph_index = trigger.glyph_index := by
  induction l generalizing trigger with
  | nil => simp [absorbInto]
  | cons g rest ih =>
    rw [absorbInto, List.foldl_cons]
    rw [show (rest.foldl _ _ : RawGlyph T) = absorbInto merge
      { trigger with
        unicodes := trigger.unicodes ++ g.unicodes
        extra_data := merge trigger.extra_data g.extra_data } rest from rfl]
    rw [ih]

theorem ligAbsorb_spec {T : Type} (vis : RawGlyph T → Bool) (merge : T → T → T)
    (gs : List (RawGlyph T)) :
    ∀ (trigger : RawGlyph T) (matched need : Nat),
    need ≤ (gs.filter vis).length →
    ∃ sk rem, ligAbsorb vis merge trigger matched need gs =
        some (absorbInto merge trigger ((gs.filter vis).take need), sk, rem, sk.length) ∧
      sk.length + rem.length + need = gs.length ∧
      ((∀ g ∈ gs, vis g = true) → sk = [] ∧ rem = gs.drop need) := by
  induction gs with
  | nil =>
    intro trigger matched need h
    have hz : need = 0 := by simpa using h
    subst hz
    exact ⟨[], [], rfl, rfl, fun _ => ⟨rfl, rfl⟩⟩
  | cons g rest ih =>
    intro trigger matched need h
    cases need with
    | zero =>
      refine ⟨[], g :: rest, rfl, by simp, fun _ => ⟨rfl, rfl⟩⟩
    | succ n =>
      by_cases hv : vis g
      · have hn : n ≤ (rest.filter vis).length := by
          have h3 : ((g :: rest).filter vis).length = (rest.filter vis).length + 1 := by
            simp [List.filter_cons, hv]
          rw [h3] at h
          omega
        obtain ⟨sk, rem, heq, hlen, hall⟩ := ih
          { trigger with
            unicodes := trigger.unicodes ++ g.unicodes
            extra_data := merge trigger.extra_data g.extra_data } (matched + 1) n hn
        refine ⟨sk, rem, ?_, ?_, ?_⟩
        · rw [ligAbsorb, if_pos hv, heq]
          simp [List.filter_cons, hv, absorbInto]
        · simp only [List.length_cons]
          omega
        · intro hall2
          have hrest : ∀ x ∈ rest, vis x = true := fun x hx =>
            hall2 x (List.mem_cons_of_mem g hx)
          rcases hall hrest with ⟨hsk, hrem⟩
          exact ⟨hsk, by simpa using hrem⟩
      · have hn : n + 1 ≤ (rest.filter vis).length := by
          simpa [List.filter_cons, hv] using h
        obtain ⟨sk, rem, heq, hlen, hall⟩ := ih trigger matched (n + 1) hn
        refine ⟨{ g with liga_component_pos := matched } :: sk, rem, ?_, ?_, ?_⟩
        · rw [ligAbsorb, if_neg hv, heq]
          simp [List.filter_cons, hv]
        · simp only [List.length_cons]
          omega
        · intro hall2
          exact absurd (hall2 g (List.mem_cons_self g rest)) hv

/-- C6: when `Ligature::matches` succeeds at an in-bounds position `i`,
`Ligature::apply` at the same position cannot reach the defensive
"ran out of glyphs" panic: it returns a result. -/
theorem ligature_apply_no_panic {T : Type} (lig : Ligature) (vis marksVis : RawGlyph T → Bool)
    (merge : T → T → T) (i : Nat) (glyphs : List (RawGlyph T))
    (hm : lig.matches vis i glyphs = true) (hi : i < glyphs.length) :
    ∃ out, lig.apply vis marksVis merge i glyphs = some out := by
  have hget : glyphs[i]? = some glyphs[i] := List.getElem?_eq_getElem hi
  have hle : lig.component_glyphs.length ≤ ((glyphs.drop (i + 1)).filter vis).length :=
    matchFrontAux_le vis _ _ hm
  obtain ⟨sk, rem, heq, -, -⟩ := ligAbsorb_spec vis merge (glyphs.drop (i + 1)) glyphs[i]
    0 lig.component_glyphs.length hle
  refine Option.isSome_iff_exists.mp ?_
  simp only [Ligature.apply, hget, heq]
  rfl

/-- Witness for C6: a 2-glyph ligature match at position 0. -/
theorem ligature_apply_no_panic_witness :
    ∃ out, Ligature.apply ⟨99, [5]⟩ allVis noMarks mergeUnit 0 exLigGlyphs = some out :=
  ligature_apply_no_panic ⟨99, [5]⟩ allVis noMarks mergeUnit 0 exLigGlyphs (by decide)
    (by decide)

/-- C3: when a ligature with `N − 1` component glyphs matches at `i` (the
selected ligature of `ligaturesubst_would_apply`, marks floating
through), ligature substitution keeps the trigger at `i`, merges each
matched component's unicodes into it by in-order concatenation and its
extra data via the type-specific merge, removes the matched components
(the sequence shrinks by `N − 1`), leaves the prefix untouched, sets the
trigger's origin to `Direct` and its glyph index to the ligature glyph,
and reports the removed-glyph count `N − 1` and the skipped-glyph count;
with no intervening marks the result is exactly
`prefix ++ trigger' :: remainder` with skip count 0 — in particular a
2-component ligature over `[X, Y]` yields the single glyph whose
unicodes are `X`'s followed by `Y`'s. -/
theorem ligaturesubst_spec {T : Type} (vis marksVis : RawGlyph T → Bool)
    (merge : T → T → T) (subtables : List (Nat → Option (List Ligature)))
    (i : Nat) (glyphs : List (RawGlyph T)) (lig : Ligature)
    (hw : ligaturesubst_would_apply vis subtables i glyphs = some lig)
    (hi : i < glyphs.length) :
    lig.matches vis i glyphs = true ∧
    (∃ glyphs2 skip t,
      ligaturesubst vis marksVis merge subtables i glyphs =
        Except.ok (some (glyphs2, lig.component_glyphs.length, skip)) ∧
      glyphs2.length + lig.component_glyphs.length = glyphs.length ∧
      glyphs2.take i = glyphs.take i ∧
      glyphs2[i]? = some t ∧
      t.glyph_index = some lig.ligature_glyph ∧
      t.glyph_origin = GlyphOrigin.direct ∧
      t.unicodes = glyphs[i].unicodes ++
        ((absorbedGlyphs vis glyphs i lig.component_glyphs.length).map
          (fun g => g.unicodes)).flatten ∧
      t.extra_data = (absorbedGlyphs vis glyphs i lig.component_glyphs.length).foldl
        (fun a g => merge a g.extra_data) glyphs[i].extra_data ∧
      ((∀ g ∈ glyphs.drop (i + 1), vis g = true) → (∀ g, marksVis g = false) →
        skip = 0 ∧
        glyphs2 = glyphs.take i ++
          (t :: (glyphs.drop (i + 1)).drop lig.component_glyphs.length))) ∧
    (∀ (X Y : RawGlyph T) (c lg : Nat), vis Y = true → Y.glyph_index = some c →
      Ligature.apply ⟨lg, [c]⟩ vis marksVis merge 0 [X, Y] =
        some ([{ X with
          unicodes := X.unicodes ++ Y.unicodes
          glyph_index := some lg
          glyph_origin := GlyphOrigin.direct
          extra_data := merge X.extra_data Y.extra_data }], 0)) := by
  have hget : glyphs[i]? = some glyphs[i] := List.getElem?_eq_getElem hi
  have hmatch : lig.matches vis i glyphs = true := by
    simp only [ligaturesubst_would_apply, hget] at hw
    rcases hgi : glyphs[i].glyph_index with _ | gidx
    · simp only [hgi] at hw
      cases hw
    · simp only [hgi] at hw
      rcases firstSome_eq_some hw with ⟨st, _, hst⟩
      rcases hset : st gidx with _ | ligatureset
      · rw [hset] at hst
        cases hst
      · rw [hset] at hst
        rcases firstSome_eq_some hst with ⟨lg2, _, hlg2⟩
        by_cases hm2 : lg2.matches vis i glyphs
        · rw [if_pos hm2] at hlg2
          cases hlg2
          exact hm2
        · rw [if_neg hm2] at hlg2
          cases hlg2
  refine ⟨hmatch, ?_, ?_⟩
  · have hle : lig.component_glyphs.length ≤ ((glyphs.drop (i + 1)).filter vis).length :=
      matchFrontAux_le vis _ _ hmatch
    obtain ⟨sk, rem, heq, hlen, hall⟩ := ligAbsorb_spec vis merge (glyphs.drop (i + 1))
      glyphs[i] 0 lig.component_glyphs.length hle
    have happly : lig.apply vis marksVis merge i glyphs =
        some (glyphs.take i ++
          ({ absorbInto merge glyphs[i]
              ((((glyphs.drop (i + 1))).filter vis).take lig.component_glyphs.length) with
            glyph_index := some lig.ligature_glyph
            glyph_origin := GlyphOrigin.direct } ::
            (sk ++ ligTrailingMarks marksVis lig.component_glyphs.length rem)), sk.length) := by
      simp only [Ligature.apply, hget, heq]
    have htake : (glyphs.take i).length = i := by
      simp [Nat.le_of_lt hi]
    refine ⟨glyphs.take i ++
        ({ absorbInto merge glyphs[i]
            ((((glyphs.drop (i + 1))).filter vis).take lig.component_glyphs.length) with
          glyph_index := some lig.ligature_glyph
          glyph_origin := GlyphOrigin.direct } ::
          (sk ++ ligTrailingMarks marksVis lig.component_glyphs.length rem)), sk.length,
      { absorbInto merge glyphs[i]
          ((((glyphs.drop (i + 1))).filter vis).take lig.component_glyphs.length) with
        glyph_index := some lig.ligature_glyph
        glyph_origin := GlyphOrigin.direct }, ?_, ?_, ?_, ?_, rfl, rfl, ?_, ?_, ?_⟩
    · simp only [ligaturesubst, hw, happly]
    · have hdrop : (glyphs.drop (i + 1)).length = glyphs.length - (i + 1) := by simp
      simp only [List.length_append, List.length_cons, htake, List.length_append,
        ligTrailingMarks_length]
      omega
    · exact List.take_left' htake
    · have h2 := getElem?_append_cons (glyphs.take i)
        ({ absorbInto merge glyphs[i]
            ((((glyphs.drop (i + 1))).filter vis).take lig.component_glyphs.length) with
          glyph_index := some lig.ligature_glyph
          glyph_origin := GlyphOrigin.direct })
        (sk ++ ligTrailingMarks marksVis lig.component_glyphs.length rem)
      rw [htake] at h2
      exact h2
    · rw [show ({ absorbInto merge glyphs[i]
          ((((glyphs.drop (i + 1))).filter vis).take lig.component_glyphs.length) with
          glyph_index := some lig.ligature_glyph
          glyph_origin := GlyphOrigin.direct } : RawGlyph T).unicodes =
        (absorbInto merge glyphs[i]
          ((((glyphs.drop (i + 1))).filter vis).take lig.component_glyphs.length)).unicodes
        from rfl]
      rw [absorbInto_unicodes]
      rfl
    · rw [show ({ absorbInto merge glyphs[i]
          ((((glyphs.drop (i + 1))).filter vis).take lig.component_glyphs.length) with
          glyph_index := some lig.ligature_glyph
          glyph_origin := GlyphOrigin.direct } : RawGlyph T).extra_data =
        (absorbInto merge glyphs[i]
          ((((glyphs.drop (i + 1))).filter vis).take lig.component_glyphs.length)).extra_data
        from rfl]
      rw [absorbInto_extra]
      rfl
    · intro hvisAll hnoMarks
      rcases hall hvisAll with ⟨hsk, hrem⟩
      subst hsk
      subst hrem
      refine ⟨rfl, ?_⟩
      rw [ligTrailingMarks_of_no_marks _ _ _ hnoMarks]
      simp
  · intro X Y c lg hvY hYc
    have h1 : ligAbsorb vis merge X 0 1 [Y] =
        some ({ X with
          unicodes := X.unicodes ++ Y.unicodes
          extra_data := merge X.extra_data Y.extra_data }, [], [], 0) := by
      rw [ligAbsorb, if_pos hvY]
      rfl
    simp only [Ligature.apply, List.getElem?_cons_zero, List.drop_succ_cons,
      List.drop_zero, List.length_cons, List.length_nil, Nat.zero_add, h1]
    rfl

/-- Witness for C3: a 2-component ligature `0 5 → 99` over the two-glyph
sequence, no marks. -/
theorem ligaturesubst_spec_witness :
    Ligature.matches ⟨99, [5]⟩ allVis 0 exLigGlyphs = true :=
  (ligaturesubst_spec allVis noMarks mergeUnit
    [fun gi => if gi = 0 then some [⟨99, [5]⟩] else none] 0 exLigGlyphs ⟨99, [5]⟩
    (by decide) (by decide)).1

/-! ## C8 — the Arabic joining pass -/

theorem setFeatureTag_preserves (j t : Nat) (l : List ArabicGlyph)
    (ht : t ∈ arabicShapeTags)
    (hl : ∀ g ∈ l, g.extra_data.feature_tag ∈ arabicShapeTags) :
    ∀ g ∈ setFeatureTag j t l, g.extra_data.feature_tag ∈ arabicShapeTags := by
  intro g hg
  rcases mem_modifyAt hg with hg2 | ⟨y, _, hgy⟩
  · exact hl g hg2
  · rw [hgy]
    exact ht

theorem arabicJoiningStep_preserves (glyphs : List ArabicGlyph) (p i : Nat)
    (h : ∀ g ∈ glyphs, g.extra_data.feature_tag ∈ arabicShapeTags) :
    ∀ g ∈ arabicJoiningStep glyphs p i, g.extra_data.feature_tag ∈ arabicShapeTags := by
  intro g hg
  unfold arabicJoiningStep at hg
  rcases hp : glyphs[p]? with _ | gp <;> simp only [hp] at hg
  · exact h g hg
  rcases hq : glyphs[i]? with _ | gi2 <;> simp only [hq] at hg
  · exact h g hg
  cases hj1 : gp.extra_data.joining_type <;> cases hj2 : gi2.extra_data.joining_type <;>
    simp only [hj1, hj2] at hg <;>
    first
      | exact h g hg
      | (split_ifs at hg <;>
          first
            | exact setFeatureTag_preserves _ _ _ (by decide)
                (setFeatureTag_preserves _ _ _ (by decide) h) g hg
            | exact setFeatureTag_preserves _ _ _ (by decide) h g hg)

theorem arabicJoiningLoop_preserves :
    ∀ (fuel : Nat) (glyphs : List ArabicGlyph) (p i : Nat),
    (∀ g ∈ glyphs, g.extra_data.feature_tag ∈ arabicShapeTags) →
    ∀ g ∈ arabicJoiningLoop fuel glyphs p i, g.extra_data.feature_tag ∈ arabicShapeTags := by
  intro fuel
  induction fuel with
  | zero => intro glyphs p i h; exact h
  | succ n ih =>
    intro glyphs p i h g hg
    rw [arabicJoiningLoop] at hg
    rcases hq : glyphs[i]? with _ | gi <;> simp only [hq] at hg
    · exact h g hg
    by_cases hs : should_skip gi
    · rw [if_pos hs] at hg
      exact ih glyphs p (i + 1) h g hg
    · rw [if_neg hs] at hg
      exact ih (arabicJoiningStep glyphs p i) i (i + 1)
        (arabicJoiningStep_preserves glyphs p i h) g hg

/-- C8: the joining-state pass assigns only the four cursive-automaton
tags `isol`/`init`/`medi`/`fina` (a sequence entering with tags in that
set — as every glyph does, the conversion seeding `isol` — leaves with
tags in that set); concretely, a 3-glyph run whose middle glyph is
DualJoining resolves the middle tag to `medi` between DualJoining
neighbours and to `isol` between NonJoining neighbours. -/
theorem arabic_joining_spec :
    (∀ glyphs : List ArabicGlyph,
      (∀ g ∈ glyphs, g.extra_data.feature_tag ∈ arabicShapeTags) →
      ∀ g ∈ arabicJoiningPass glyphs, g.extra_data.feature_tag ∈ arabicShapeTags) ∧
    ((arabicJoiningPass exDual3)[1]?).map (fun g => g.extra_data.feature_tag) =
      some tag.MEDI ∧
    ((arabicJoiningPass exIsolated3)[1]?).map (fun g => g.extra_data.feature_tag) =
      some tag.ISOL := by
  refine ⟨?_, by decide, by decide⟩
  intro glyphs h
  exact arabicJoiningLoop_preserves glyphs.length glyphs (arabicInitialPrev glyphs)
    (arabicInitialPrev glyphs + 1) h

/-- Witness for C8's preservation conjunct at the concrete 3-glyph run:
the pass's first output glyph (tagged `init`) stays in the tag set. -/
theorem arabic_joining_spec_witness :
    ({ mkArabicGlyph JoiningType.dualJoining with
        extra_data := ⟨JoiningType.dualJoining, tag.INIT⟩ } :
      ArabicGlyph).extra_data.feature_tag ∈ arabicShapeTags :=
  arabic_joining_spec.1 exDual3 (by decide) _ (by decide)

/-! ## C9 — fraction detection and fraction-aware application -/

theorem fracStartLoop_spec {T : Type} (glyphs : List (RawGlyph T)) :
    ∀ p, fracStartLoop glyphs p ≤ p ∧
      (∀ j, fracStartLoop glyphs p ≤ j → j < p → digitAt glyphs j = true) ∧
      (fracStartLoop glyphs p = 0 ∨ digitAt glyphs (fracStartLoop glyphs p - 1) = false) := by
  intro p
  induction p with
  | zero =>
    exact ⟨Nat.le_refl 0, fun j _ h2 => absurd h2 (Nat.not_lt_zero j), Or.inl rfl⟩
  | succ s ih =>
    rcases hq : glyphs[s]? with _ | g
    · have hr : fracStartLoop glyphs (s + 1) = s + 1 := by
        simp [fracStartLoop, hq]
      refine ⟨by rw [hr], fun j h1 h2 => ?_, Or.inr ?_⟩
      · rw [hr] at h1
        omega
      · rw [hr]
        simp [digitAt, hq]
    · by_cases hd : isDigitOrigin g
      · have hr : fracStartLoop glyphs (s + 1) = fracStartLoop glyphs s := by
          simp [fracStartLoop, hq, hd]
        obtain ⟨ih1, ih2, ih3⟩ := ih
        refine ⟨?_, ?_, ?_⟩
        · rw [hr]
          omega
        · intro j h1 h2
          rw [hr] at h1
          by_cases hjs : j < s
          · exact ih2 j h1 hjs
          · have hj : j = s := by omega
            subst hj
            simp [digitAt, hq, hd]
        · rw [hr]
          exact ih3
      · have hr : fracStartLoop glyphs (s + 1) = s + 1 := by
          simp [fracStartLoop, hq, hd]
        refine ⟨by rw [hr], fun j h1 h2 => ?_, Or.inr ?_⟩
        · rw [hr] at h1
          omega
        · rw [hr]
          simp [digitAt, hq, hd]

theorem fracEndLoop_spec {T : Type} (glyphs : List (RawGlyph T)) :
    ∀ fuel e, glyphs.length ≤ fuel + e →
      e ≤ fracEndLoop glyphs fuel e ∧
      (∀ j, e < j → j ≤ fracEndLoop glyphs fuel e → digitAt glyphs j = true) ∧
      (glyphs.length ≤ fracEndLoop glyphs fuel e + 1 ∨
        digitAt glyphs (fracEndLoop glyphs fuel e + 1) = false) := by
  intro fuel
  induction fuel with
  | zero =>
    intro e h
    have h0 : fracEndLoop glyphs 0 e = e := rfl
    refine ⟨by rw [h0], fun j h1 h2 => ?_, Or.inl (by rw [h0]; omega)⟩
    rw [h0] at h2
    omega
  | succ n ih =>
    intro e h
    by_cases hlt : e + 1 < glyphs.length
    · rcases hq : glyphs[e + 1]? with _ | g
      · have hr : fracEndLoop glyphs (n + 1) e = e := by
          simp [fracEndLoop, hlt, hq]
        refine ⟨by rw [hr], fun j h1 h2 => by rw [hr] at h2; omega, Or.inr ?_⟩
        rw [hr]
        simp [digitAt, hq]
      · by_cases hd : isDigitOrigin g
        · have hr : fracEndLoop glyphs (n + 1) e = fracEndLoop glyphs n (e + 1) := by
            simp [fracEndLoop, hlt, hq, hd]
          obtain ⟨ih1, ih2, ih3⟩ := ih (e + 1) (by omega)
          refine ⟨by rw [hr]; omega, ?_, by rw [hr]; exact ih3⟩
          intro j h1 h2
          rw [hr] at h2
          by_cases hj : e + 1 < j
          · exact ih2 j hj h2
          · have hje : j = e + 1 := by omega
            subst hje
            simp [digitAt, hq, hd]
        · have hr : fracEndLoop glyphs (n + 1) e = e := by
            simp [fracEndLoop, hlt, hq, hd]
          refine ⟨by rw [hr], fun j h1 h2 => by rw [hr] at h2; omega, Or.inr ?_⟩
          rw [hr]
          simp [digitAt, hq, hd]
    · have hr : fracEndLoop glyphs (n + 1) e = e := by
        simp [fracEndLoop, hlt]
      refine ⟨by rw [hr], fun j h1 h2 => by rw [hr] at h2; omega,
        Or.inl (by rw [hr]; omega)⟩

theorem fracStartLoop_eq_self {T : Type} (glyphs : List (RawGlyph T)) (p : Nat)
    (h : p = 0 ∨ digitAt glyphs (p - 1) = false) : fracStartLoop glyphs p = p := by
  rcases h with h | h
  · subst h
    rfl
  · cases p with
    | zero => rfl
    | succ s =>
      simp only [Nat.add_sub_cancel] at h
      rcases hq : glyphs[s]? with _ | g
      · simp [fracStartLoop, hq]
      · have hd : isDigitOrigin g = false := by
          simpa [digitAt, hq] using h
        simp [fracStartLoop, hq, hd]

/-- C9: when `FRAC` is enabled, fraction detection finds a span around the
first `'/'`-origin glyph that is maximal over digit-origin glyphs and has
at least one digit on each side; a first slash with no digit immediately
to its left (in particular one with no adjacent digit on either side)
yields no span; with no span found the non-fraction lookup set is applied
to the whole sequence; and on the concrete run `a 1/2 b` the fraction set
(mapping to glyph 90) fires exactly on the `1/2` span while the
non-fraction set (mapping to glyph 80) fires on the rest — a bare slash
sequence gets the non-fraction set throughout. -/
theorem fraction_handling_spec (T : Type) :
    (∀ (glyphs : List (RawGlyph T)) (s p e : Nat),
      find_fraction glyphs = some (s, p, e) →
      s < p ∧ p < e ∧
      glyphs.findIdx? (fun g => decide (g.glyph_origin = GlyphOrigin.char '/')) = some p ∧
      (∀ j, s ≤ j → j < p → digitAt glyphs j = true) ∧
      (∀ j, p < j → j ≤ e → digitAt glyphs j = true) ∧
      (s = 0 ∨ digitAt glyphs (s - 1) = false) ∧
      (glyphs.length ≤ e + 1 ∨ digitAt glyphs (e + 1) = false)) ∧
    (∀ (glyphs : List (RawGlyph T)) (p : Nat),
      glyphs.findIdx? (fun g => decide (g.glyph_origin = GlyphOrigin.char '/')) = some p →
      (p = 0 ∨ digitAt glyphs (p - 1) = false) →
      find_fraction glyphs = none) ∧
    (∀ (optLookupList : Option (List (LookupCacheItem T))) (marksVis : RawGlyph T → Bool)
      (merge : T → T → T) (lookups lookups_frac : List (Nat × Nat))
      (glyphs : List (RawGlyph T)),
      glyphs ≠ [] → find_fraction glyphs = none →
      gsub_apply_lookups_frac optLookupList marksVis merge lookups lookups_frac glyphs =
        Except.map (fun r => r.2)
          (gsub_apply_lookups_impl optLookupList marksVis merge lookups glyphs 0
            glyphs.length)) ∧
    (Except.map (fun l => l.map (fun g => g.glyph_index))
        (gsub_apply_lookups_frac (some exFracLookupList) noMarks mergeUnit exFracLookups
          exFracLookupsFrac exFracGlyphs) =
      Except.ok [some 80, some 90, some 90, some 90, some 80]) ∧
    (Except.map (fun l => l.map (fun g => g.glyph_index))
        (gsub_apply_lookups_frac (some exFracLookupList) noMarks mergeUnit exFracLookups
          exFracLookupsFrac exBareSlashGlyphs) =
      Except.ok [some 80, some 80, some 80]) := by
  refine ⟨?_, ?_, ?_, rfl, rfl⟩
  · intro glyphs s p e h
    rcases hidx : glyphs.findIdx?
        (fun g => decide (g.glyph_origin = GlyphOrigin.char '/')) with _ | sp
    · simp [find_fraction, hidx] at h
    · simp only [find_fraction, hidx] at h
      split_ifs at h with hcond
      · obtain ⟨hS1, hS2, hS3⟩ := fracStartLoop_spec glyphs sp
        obtain ⟨hE1, hE2, hE3⟩ := fracEndLoop_spec glyphs glyphs.length sp (by omega)
        cases h
        exact ⟨hcond.1, hcond.2, hidx, hS2, hE2, hS3, hE3⟩
  · intro glyphs p hidx hside
    have hs := fracStartLoop_eq_self glyphs p hside
    simp only [find_fraction, hidx, hs]
    rw [if_neg (fun hc => Nat.lt_irrefl p hc.1)]
  · intro optLookupList marksVis merge lookups lookups_frac glyphs hne hnone
    rw [gsub_apply_lookups_frac, fracLoop]
    rw [if_pos (List.length_pos.mpr hne)]
    simp only [List.drop_zero, hnone, Nat.sub_zero]
    rcases himpl : gsub_apply_lookups_impl optLookupList marksVis merge lookups glyphs 0
        glyphs.length with err | ok
    · simp [himpl, Except.map]
    · simp [himpl, Except.map]

/-- Witness for C9's span-property conjunct at the `a 1/2 b` run, where
`find_fraction` returns span `(1, 2, 3)`. -/
theorem fraction_handling_spec_witness :
    digitAt exFracGlyphs 1 = true :=
  ((fraction_handling_spec Unit).1 exFracGlyphs 1 2 3 rfl).2.2.2.1 1 (Nat.le_refl 1)
    (by decide)

/-! ## C1 — the nested-substitution recursion limit -/

/-- C1: a nested `Context`/`ChainContext` lookup invoked by `apply_subst`
with remaining depth 0 (after the nested position is located) fails with
`LimitExceeded`; concretely, with the fixed limit
`SUBST_RECURSION_LIMIT = 2` a chain-context chain 3 nested invocations
deep fails with `LimitExceeded` while a chain 2 nested invocations deep
succeeds. -/
theorem subst_recursion_limit_spec (T : Type) :
    SUBST_RECURSION_LIMIT = 2 ∧
    (∀ (env : SubstEnv T) (feature_tag : Nat) (parentVis : RawGlyph T → Bool)
      (subst_index lookup_index index : Nat) (glyphs : List (RawGlyph T))
      (lk : LookupCacheItem T) (st : List ContextLookupModel) (i : Nat),
      env.lookupList[lookup_index]? = some lk →
      (lk.lookup_subtables = SubstLookup.contextSubst st ∨
        lk.lookup_subtables = SubstLookup.chainContextSubst st) →
      find_nth parentVis glyphs index subst_index = some i →
      apply_subst env 0 feature_tag parentVis subst_index lookup_index index glyphs =
        Except.error SubstError.limitExceeded) ∧
    gsub_apply_lookup (some exDeep3List) noMarks mergeUnit 0 tag.CALT none exOneGlyph 0 1
      (fun _ => true) = Except.error SubstError.limitExceeded ∧
    gsub_apply_lookup (some exDeep2List) noMarks mergeUnit 0 tag.CALT none exOneGlyph 0 1
      (fun _ => true) = Except.ok (1, exOneGlyph) := by
  refine ⟨rfl, ?_, rfl, rfl⟩
  intro env feature_tag parentVis subst_index lookup_index index glyphs lk st i hlk hsub hfind
  simp only [apply_subst, hlk, hfind]
  rcases hsub with h | h <;> rw [h]

/-- Witness for C1's depth-0 conjunct at a concrete one-lookup chain. -/
theorem subst_recursion_limit_spec_witness :
    apply_subst (⟨exDeep3List, noMarks, mergeUnit⟩ : SubstEnv Unit) 0 tag.CALT allVis 0 0 0
      exOneGlyph = Except.error SubstError.limitExceeded :=
  (subst_recursion_limit_spec Unit).2.1 ⟨exDeep3List, noMarks, mergeUnit⟩ tag.CALT allVis
    0 0 0 exOneGlyph (chainItem (exChainSub 1)) [exChainSub 1] 0 rfl (Or.inr rfl) rfl

/-! ## C10 — `gsub_apply_custom` windows -/

theorem singlesubst_append {T : Type} (subtables : List (Nat → Option Nat))
    (feature_tag : Nat) (pre : List (RawGlyph T)) (g : RawGlyph T)
    (ys : List (RawGlyph T)) :
    singlesubst subtables feature_tag pre.length (pre ++ g :: ys) =
      pre ++ singleCore subtables feature_tag g :: ys := by
  rcases hgi : g.glyph_index with _ | gidx
  · have hwa : singlesubst_would_apply subtables pre.length (pre ++ g :: ys) = none := by
      simp only [singlesubst_would_apply, getElem?_append_cons, hgi]
    simp only [singlesubst, hwa, singleCore, hgi]
  · rcases hfs : firstSome (fun st => st gidx) subtables with _ | out
    · have hwa : singlesubst_would_apply subtables pre.length (pre ++ g :: ys) = none := by
        simp only [singlesubst_would_apply, getElem?_append_cons, hgi, hfs]
      simp only [singlesubst, hwa, singleCore, hgi, hfs]
    · have hwa : singlesubst_would_apply subtables pre.length (pre ++ g :: ys) = some out := by
        simp only [singlesubst_would_apply, getElem?_append_cons, hgi, hfs]
      simp only [singlesubst, hwa, singleCore, hgi, hfs]
      exact modifyAt_append _ pre g ys

theorem singleLoop_map {T : Type} (subtables : List (Nat → Option Nat))
    (vis pred : RawGlyph T → Bool) (feature_tag : Nat) :
    ∀ (mid pre post : List (RawGlyph T)),
    singleLoop subtables vis pred feature_tag (pre ++ (mid ++ post)) pre.length mid.length =
      Except.ok (pre ++ (mid.map (singleStep subtables feature_tag vis pred) ++ post)) := by
  intro mid
  induction mid with
  | nil => intro pre post; simp [singleLoop]
  | cons g rest ih =>
    intro pre post
    simp only [List.length_cons, List.cons_append]
    simp only [singleLoop, getElem?_append_cons]
    by_cases hvp : vis g && pred g
    · rw [if_pos hvp, singlesubst_append]
      have h2 := ih (pre ++ [singleCore subtables feature_tag g]) post
      have hlen : (pre ++ [singleCore subtables feature_tag g]).length = pre.length + 1 := by
        simp
      rw [hlen] at h2
      have hshape : (pre ++ [singleCore subtables feature_tag g]) ++ (rest ++ post) =
          pre ++ singleCore subtables feature_tag g :: (rest ++ post) := by
        simp
      rw [hshape] at h2
      rw [h2]
      simp [singleStep, hvp]
    · rw [if_neg hvp]
      have h2 := ih (pre ++ [g]) post
      have hlen : (pre ++ [g]).length = pre.length + 1 := by simp
      rw [hlen] at h2
      have hshape : (pre ++ [g]) ++ (rest ++ post) = pre ++ g :: (rest ++ post) := by simp
      rw [hshape] at h2
      rw [h2]
      simp [singleStep, hvp]

/-- C10: in `gsub_apply_custom` over a non-empty glyph sequence, a lookup
attributed to the `fina` feature tag is applied over the one-glyph
window holding only the last glyph (the prefix reaches the final
missing-glyph pass untouched), while a lookup attributed to any other
feature tag is applied over the whole sequence (shown for `SingleSubst`
lookups, whose application is pointwise). -/
theorem gsub_apply_custom_window_spec (T : Type) :
    (∀ (ls : Nat → Option (List Nat)) (vis marksVis : RawGlyph T → Bool)
      (merge : T → T → T) (subtables : List (Nat → Option Nat)) (num_glyphs : Nat)
      (pre : List (RawGlyph T)) (last : RawGlyph T),
      ls tag.FINA = some [0] →
      gsub_apply_custom (some ls) (some [⟨vis, SubstLookup.singleSubst subtables⟩])
        marksVis merge [⟨tag.FINA, none⟩] num_glyphs (pre ++ [last]) =
        Except.ok (replace_missing_glyphs
          (pre ++ [singleStep subtables tag.FINA vis (fun _ => true) last]) num_glyphs)) ∧
    (∀ (ls : Nat → Option (List Nat)) (vis marksVis : RawGlyph T → Bool)
      (merge : T → T → T) (subtables : List (Nat → Option Nat)) (num_glyphs : Nat)
      (glyphs : List (RawGlyph T)) (t : Nat),
      t ≠ tag.FINA → ls t = some [0] →
      gsub_apply_custom (some ls) (some [⟨vis, SubstLookup.singleSubst subtables⟩])
        marksVis merge [⟨t, none⟩] num_glyphs glyphs =
        Except.ok (replace_missing_glyphs
          (glyphs.map (singleStep subtables t vis (fun _ => true))) num_glyphs)) := by
  constructor
  · intro ls vis marksVis merge subtables num_glyphs pre last hls
    have hlk : build_lookups_custom ls [⟨tag.FINA, none⟩] = [(0, tag.FINA)] := by
      simp [build_lookups_custom, hls, insertIndices, btreeInsert]
    rw [gsub_apply_custom, hlk]
    have hlen : (pre ++ [last]).length = pre.length + 1 := by simp
    have hcond : tag.FINA = tag.FINA ∧ 0 < (pre ++ [last]).length := ⟨rfl, by simp⟩
    rw [customLoop, if_pos hcond]
    have hstart : (pre ++ [last]).length - 1 = pre.length := by
      rw [hlen]
      omega
    have hloop := singleLoop_map subtables vis (fun _ => true) tag.FINA [last] pre []
    have hshape : pre ++ ([last] ++ []) = pre ++ [last] := by simp
    rw [hshape] at hloop
    simp only [List.length_cons, List.length_nil, Nat.zero_add, List.append_nil] at hloop
    rw [gsub_apply_lookup]
    simp only [List.getElem?_cons_zero, hstart, hloop]
    simp [customLoop]
  · intro ls vis marksVis merge subtables num_glyphs glyphs t ht hls
    have hlk : build_lookups_custom ls [⟨t, none⟩] = [(0, t)] := by
      simp [build_lookups_custom, hls, insertIndices, btreeInsert]
    rw [gsub_apply_custom, hlk]
    have hcond : ¬(t = tag.FINA ∧ 0 < glyphs.length) := fun hc => ht hc.1
    rw [customLoop, if_neg hcond]
    have hloop := singleLoop_map subtables vis (fun _ => true) t glyphs [] []
    simp only [List.nil_append, List.append_nil, List.length_nil] at hloop
    rw [gsub_apply_lookup]
    simp only [List.getElem?_cons_zero, hloop]
    simp [customLoop]

/-- Witness for C10 at concrete one-glyph data. -/
theorem gsub_apply_custom_window_spec_witness :
    gsub_apply_custom (some (fun t => if t = tag.FINA then some [0] else none))
      (some [⟨allVis, SubstLookup.singleSubst [fun _ => some 7]⟩]) noMarks mergeUnit
      [⟨tag.FINA, none⟩] 100 ([] ++ [mkGlyph (some 3) GlyphOrigin.direct]) =
      Except.ok (replace_missing_glyphs
        ([] ++ [singleStep [fun _ => some 7] tag.FINA allVis (fun _ => true)
          (mkGlyph (some 3) GlyphOrigin.direct)]) 100) :=
  (gsub_apply_custom_window_spec Unit).1 (fun t => if t = tag.FINA then some [0] else none)
    allVis noMarks mergeUnit [fun _ => some 7] 100 [] (mkGlyph (some 3) GlyphOrigin.direct)
    (by simp)

end Allsorts

